import Mathlib

/-!
Verification of the résumé ingestion and candidate-scoring pipeline of the
AuraHR backend (`app/services/ai_service.py` and the background task in
`app/api/v1/endpoints/jobs.py`).

The Python code is shallowly embedded as follows:

* Python `float` arithmetic on the small decimal constants of the scoring
  pipeline is modelled exactly by `PyNum`, an unnormalized fraction of
  integers (all constants involved are exact decimals and the pipeline stays
  far away from the magnitudes where binary floating point would diverge
  from exact arithmetic); `PyNum.toRat` maps into `ℚ` for reasoning.
* Python `int()` truncation is `PyNum.trunc` (truncation toward zero).
* Strings are Lean `String`s, processed through `List Char`; the ASCII
  fragments of Python's `str.lower`, `\w`, `\s` and `str.split()` are used
  (the résumé texts the claims quantify over are modelled up to this ASCII
  approximation, which is also noted at the individual definitions).
* `re` patterns are either translated into explicit character scanners
  (e-mail extraction), or — where a pattern only produces an intermediate
  numeric/boolean feature (years-of-experience counts, e-mail/phone
  presence flags, the configuration-driven skill dictionary) — that feature
  is abstracted as a parameter of the embedding (`RegexFeatures`), so the
  theorems quantify over every value the regex pass could produce.
* `try/except` fallback chains are modelled by explicit outcome data for
  each fallible backend (`PdfBackendRun`, the `hfOk` flag, …): each backend
  is described by what it appended before completing or raising, and the
  embedding of the surrounding function handles every such outcome.
-/

namespace AuraHR

set_option maxRecDepth 10000

/-! ## Exact model of the Python float arithmetic used by the scorer -/

/-- Unnormalized fraction `num / den`.  All operations keep the denominator
positive when both inputs have positive denominators; `DenPos` tracks this. -/
structure PyNum where
  num : ℤ
  den : ℤ
  deriving DecidableEq

namespace PyNum

/-- Embed an integer. -/
def ofInt (n : ℤ) : PyNum := ⟨n, 1⟩

/-- A literal fraction, used for the decimal constants of the source
(e.g. `0.4` is `frac 2 5`). -/
def frac (n d : ℤ) : PyNum := ⟨n, d⟩

instance : Add PyNum := ⟨fun x y => ⟨x.num * y.den + y.num * x.den, x.den * y.den⟩⟩

instance : Sub PyNum := ⟨fun x y => ⟨x.num * y.den - y.num * x.den, x.den * y.den⟩⟩

instance : Mul PyNum := ⟨fun x y => ⟨x.num * y.num, x.den * y.den⟩⟩

instance : Div PyNum :=
  ⟨fun x y =>
    if y.num = 0 then ⟨0, 1⟩
    else if 0 < y.num then ⟨x.num * y.den, x.den * y.num⟩
    else ⟨-(x.num * y.den), x.den * -y.num⟩⟩

/-- Boolean `x <= y` (valid when both denominators are positive). -/
def ble (x y : PyNum) : Bool := decide (x.num * y.den ≤ y.num * x.den)

/-- Boolean `x < y` (valid when both denominators are positive). -/
def blt (x y : PyNum) : Bool := decide (x.num * y.den < y.num * x.den)

/-- Python `min` on two values. -/
def pymin (x y : PyNum) : PyNum := if ble x y then x else y

/-- Python `max` on two values. -/
def pymax (x y : PyNum) : PyNum := if ble x y then y else x

/-- Python `int(·)`: truncation toward zero. -/
def trunc (x : PyNum) : ℤ := Int.tdiv x.num x.den

/-- The rational value of a `PyNum`. -/
def toRat (x : PyNum) : ℚ := (x.num : ℚ) / (x.den : ℚ)

/-- The denominator is positive; every operation preserves this. -/
def DenPos (x : PyNum) : Prop := 0 < x.den

theorem DenPos.ofInt (n : ℤ) : DenPos (PyNum.ofInt n) := one_pos

theorem DenPos.frac {n d : ℤ} (hd : 0 < d) : DenPos (PyNum.frac n d) := hd

theorem DenPos.add {x y : PyNum} (hx : DenPos x) (hy : DenPos y) : DenPos (x + y) :=
  mul_pos hx hy

theorem DenPos.sub {x y : PyNum} (hx : DenPos x) (hy : DenPos y) : DenPos (x - y) :=
  mul_pos hx hy

theorem DenPos.mul {x y : PyNum} (hx : DenPos x) (hy : DenPos y) : DenPos (x * y) :=
  mul_pos hx hy

theorem DenPos.div {x y : PyNum} (hx : DenPos x) (hy : DenPos y) : DenPos (x / y) := by
  show DenPos (if y.num = 0 then ⟨0, 1⟩ else if 0 < y.num then
    ⟨x.num * y.den, x.den * y.num⟩ else ⟨-(x.num * y.den), x.den * -y.num⟩)
  split
  · exact one_pos
  · split
    · exact mul_pos hx ‹0 < y.num›
    · exact mul_pos hx (by omega)

theorem DenPos.pymin {x y : PyNum} (hx : DenPos x) (hy : DenPos y) : DenPos (pymin x y) := by
  unfold PyNum.pymin; split <;> assumption

theorem DenPos.pymax {x y : PyNum} (hx : DenPos x) (hy : DenPos y) : DenPos (pymax x y) := by
  unfold PyNum.pymax; split <;> assumption

theorem toRat_ofInt (n : ℤ) : (ofInt n).toRat = (n : ℚ) := by
  simp [toRat, ofInt]

theorem toRat_add {x y : PyNum} (hx : DenPos x) (hy : DenPos y) :
    (x + y).toRat = x.toRat + y.toRat := by
  show ((x.num * y.den + y.num * x.den : ℤ) : ℚ) / ((x.den * y.den : ℤ) : ℚ) = _
  have hx' : (x.den : ℚ) ≠ 0 := Int.cast_ne_zero.mpr hx.ne'
  have hy' : (y.den : ℚ) ≠ 0 := Int.cast_ne_zero.mpr hy.ne'
  field_simp [toRat]
  try ring

theorem toRat_sub {x y : PyNum} (hx : DenPos x) (hy : DenPos y) :
    (x - y).toRat = x.toRat - y.toRat := by
  show ((x.num * y.den - y.num * x.den : ℤ) : ℚ) / ((x.den * y.den : ℤ) : ℚ) = _
  have hx' : (x.den : ℚ) ≠ 0 := Int.cast_ne_zero.mpr hx.ne'
  have hy' : (y.den : ℚ) ≠ 0 := Int.cast_ne_zero.mpr hy.ne'
  field_simp [toRat]
  try ring

theorem toRat_mul {x y : PyNum} (hx : DenPos x) (hy : DenPos y) :
    (x * y).toRat = x.toRat * y.toRat := by
  show ((x.num * y.num : ℤ) : ℚ) / ((x.den * y.den : ℤ) : ℚ) = _
  have hx' : (x.den : ℚ) ≠ 0 := Int.cast_ne_zero.mpr hx.ne'
  have hy' : (y.den : ℚ) ≠ 0 := Int.cast_ne_zero.mpr hy.ne'
  field_simp [toRat]
  try ring

theorem toRat_div {x y : PyNum} (hx : DenPos x) (hy : DenPos y) :
    (x / y).toRat = x.toRat / y.toRat := by
  show toRat (if y.num = 0 then ⟨0, 1⟩ else if 0 < y.num then
    ⟨x.num * y.den, x.den * y.num⟩ else ⟨-(x.num * y.den), x.den * -y.num⟩) = _
  have hx' : (x.den : ℚ) ≠ 0 := Int.cast_ne_zero.mpr hx.ne'
  have hy' : (y.den : ℚ) ≠ 0 := Int.cast_ne_zero.mpr hy.ne'
  split
  · rename_i h0
    simp [toRat, h0]
  · split
    · rename_i h0 hpos
      have hn' : (y.num : ℚ) ≠ 0 := Int.cast_ne_zero.mpr h0
      show ((x.num * y.den : ℤ) : ℚ) / ((x.den * y.num : ℤ) : ℚ) = _
      field_simp [toRat]
      try ring
    · rename_i h0 hpos
      have hn' : (y.num : ℚ) ≠ 0 := Int.cast_ne_zero.mpr h0
      show ((-(x.num * y.den) : ℤ) : ℚ) / ((x.den * -y.num : ℤ) : ℚ) = _
      field_simp [toRat]
      try ring

theorem ble_iff {x y : PyNum} (hx : DenPos x) (hy : DenPos y) :
    ble x y = true ↔ x.toRat ≤ y.toRat := by
  have hx' : (0 : ℚ) < (x.den : ℚ) := by exact_mod_cast hx
  have hy' : (0 : ℚ) < (y.den : ℚ) := by exact_mod_cast hy
  rw [ble, decide_eq_true_iff, toRat, toRat, div_le_div_iff hx' hy']
  constructor <;> intro h
  · exact_mod_cast h
  · exact_mod_cast h

theorem blt_iff {x y : PyNum} (hx : DenPos x) (hy : DenPos y) :
    blt x y = true ↔ x.toRat < y.toRat := by
  have hx' : (0 : ℚ) < (x.den : ℚ) := by exact_mod_cast hx
  have hy' : (0 : ℚ) < (y.den : ℚ) := by exact_mod_cast hy
  rw [blt, decide_eq_true_iff, toRat, toRat, div_lt_div_iff hx' hy']
  constructor <;> intro h
  · exact_mod_cast h
  · exact_mod_cast h

theorem toRat_pymin {x y : PyNum} (hx : DenPos x) (hy : DenPos y) :
    (pymin x y).toRat = min x.toRat y.toRat := by
  unfold PyNum.pymin
  by_cases h : ble x y = true
  · rw [if_pos h]
    exact (min_eq_left ((ble_iff hx hy).mp h)).symm
  · have := (not_iff_not.mpr (ble_iff hx hy)).mp (by simpa using h)
    rw [if_neg h]
    exact (min_eq_right (le_of_not_le this)).symm

theorem toRat_pymax {x y : PyNum} (hx : DenPos x) (hy : DenPos y) :
    (pymax x y).toRat = max x.toRat y.toRat := by
  unfold PyNum.pymax
  by_cases h : ble x y = true
  · rw [if_pos h]
    exact (max_eq_right ((ble_iff hx hy).mp h)).symm
  · have := (not_iff_not.mpr (ble_iff hx hy)).mp (by simpa using h)
    rw [if_neg h]
    exact (max_eq_left (le_of_not_le this)).symm

theorem num_nonneg_iff {x : PyNum} (hx : DenPos x) : 0 ≤ x.num ↔ 0 ≤ x.toRat := by
  have hx' : (0 : ℚ) < (x.den : ℚ) := by exact_mod_cast hx
  rw [toRat, le_div_iff hx', zero_mul]
  exact ⟨fun h => by exact_mod_cast h, fun h => by exact_mod_cast h⟩

theorem trunc_eq_floor {x : PyNum} (hx : DenPos x) (h0 : 0 ≤ x.toRat) :
    trunc x = ⌊x.toRat⌋ := by
  have hnum : 0 ≤ x.num := (num_nonneg_iff hx).mpr h0
  have hden : x.den = (x.den.toNat : ℤ) := (Int.toNat_of_nonneg hx.le).symm
  rw [trunc, Int.tdiv_eq_ediv hnum (by omega), toRat, hden]
  rw [show ((x.den.toNat : ℤ) : ℚ) = (x.den.toNat : ℚ) by push_cast; ring]
  exact (Rat.floor_intCast_div_natCast x.num x.den.toNat).symm

theorem trunc_nonneg {x : PyNum} (hx : DenPos x) (h0 : 0 ≤ x.toRat) : 0 ≤ trunc x := by
  rw [trunc_eq_floor hx h0]
  exact Int.floor_nonneg.mpr h0

theorem trunc_le {x : PyNum} (hx : DenPos x) (h0 : 0 ≤ x.toRat) {c : ℤ}
    (h : x.toRat ≤ (c : ℚ)) : trunc x ≤ c := by
  rw [trunc_eq_floor hx h0]
  exact (Int.floor_mono h).trans_eq (Int.floor_intCast c)

theorem trunc_toRat_le {x : PyNum} (hx : DenPos x) (h0 : 0 ≤ x.toRat) :
    ((trunc x : ℤ) : ℚ) ≤ x.toRat := by
  rw [trunc_eq_floor hx h0]
  exact Int.floor_le _

theorem trunc_mono {x y : PyNum} (hx : DenPos x) (hy : DenPos y) (h0 : 0 ≤ x.toRat)
    (h : x.toRat ≤ y.toRat) : trunc x ≤ trunc y := by
  rw [trunc_eq_floor hx h0, trunc_eq_floor hy (h0.trans h)]
  exact Int.floor_mono h

end PyNum

/-! ## String and character utilities mirroring the Python primitives -/

/-- The ASCII fragment of the whitespace class `\s` of Python's `re` module
(and of `str.strip` / `str.split`). -/
def isPySpace (c : Char) : Bool :=
  c == ' ' || c == '\t' || c == '\n' || c == '\r' || c == '\x0b' || c == '\x0c'

/-- The ASCII fragment of the word class `\w` of Python's `re` module. -/
def isWordChar (c : Char) : Bool := c.isAlphanum || c == '_'

/-- Does `l` start with `p`? -/
def subStarts : List Char → List Char → Bool
  | [], _ => true
  | _ :: _, [] => false
  | a :: p, b :: l => a == b && subStarts p l

/-- Does the list contain `p` as a contiguous sublist?  (Python `in` on `str`.) -/
def hasSub (p : List Char) : List Char → Bool
  | [] => subStarts p []
  | l@(_ :: t) => subStarts p l || hasSub p t

/-- Python `needle in hay` on strings. -/
def pyIn (needle hay : String) : Bool := hasSub needle.data hay.data

/-- Python `str.lower()` (ASCII fragment). -/
def pyLower (s : String) : String := String.mk (s.data.map Char.toLower)

/-- Strip leading and trailing whitespace from a character list. -/
def trimChars (cs : List Char) : List Char :=
  List.rdropWhile isPySpace (List.dropWhile isPySpace cs)

/-- Python `str.strip()`. -/
def pyStrip (s : String) : String := String.mk (trimChars s.data)

/-- Replace every maximal run of characters satisfying `p` by the single
character `r` (the state records whether we are inside such a run). -/
def collapseRunsAux (p : Char → Bool) (r : Char) : Bool → List Char → List Char
  | _, [] => []
  | inRun, c :: cs =>
    if p c then
      if inRun then collapseRunsAux p r true cs else r :: collapseRunsAux p r true cs
    else c :: collapseRunsAux p r false cs

/-- `re.sub` of a run of matching characters by one replacement character. -/
def collapseRuns (p : Char → Bool) (r : Char) (cs : List Char) : List Char :=
  collapseRunsAux p r false cs

/-- Split at every character satisfying `p` (keeping empty pieces),
like Python `str.split(sep)` for a one-character separator. -/
def splitWhen (p : Char → Bool) : List Char → List (List Char)
  | [] => [[]]
  | c :: cs =>
    match splitWhen p cs with
    | [] => [[c]]
    | l :: ls => if p c then [] :: l :: ls else (c :: l) :: ls

/-- Python `str.split()` with no separator: split on whitespace runs and
drop the empty pieces. -/
def pySplitWs (s : String) : List (List Char) :=
  (splitWhen isPySpace s.data).filter (fun w => !w.isEmpty)

/-- Python `str.capitalize()`: first character upper-cased, the rest
lower-cased. -/
def pyCapitalize (s : String) : String :=
  match s.data with
  | [] => ""
  | c :: cs => String.mk (c.toUpper :: cs.map Char.toLower)

/-- First `some` produced by `f` along the list (models the pervasive
"loop over candidates, keep the first hit, then break" idiom). -/
def firstSome {α β : Type} (f : α → Option β) : List α → Option β
  | [] => none
  | a :: as => match f a with
    | some b => some b
    | none => firstSome f as

/-- Python `str.replace(pat, repl)` (all non-overlapping occurrences, left to
right).  The numeric state counts characters still to skip after a match. -/
def replaceSubAux (pat repl : List Char) : ℕ → List Char → List Char
  | _, [] => []
  | n + 1, _ :: cs => replaceSubAux pat repl n cs
  | 0, c :: cs =>
    if subStarts pat (c :: cs) then repl ++ replaceSubAux pat repl (pat.length - 1) cs
    else c :: replaceSubAux pat repl 0 cs

/-- Python `s.replace(pat, repl)` (for non-empty `pat`). -/
def replaceStr (s pat repl : String) : String :=
  String.mk (replaceSubAux pat.data repl.data 0 s.data)

theorem firstSome_eq_none {α β : Type} (f : α → Option β) (l : List α)
    (h : ∀ a ∈ l, f a = none) : firstSome f l = none := by
  induction l with
  | nil => rfl
  | cons a as ih =>
    show (match f a with | some b => some b | none => firstSome f as) = none
    rw [h a (List.mem_cons_self a as)]
    exact ih fun x hx => h x (List.mem_cons_of_mem a hx)

/-! ## `_clean_extracted_text` (ai_service.py, lines 454-481) -/

/-- The conservative safe character class of `re.sub(r'[^\\w\\s@.-]', '', text)`:
word characters, whitespace, `@`, `.`, `-`. -/
def safeChar (c : Char) : Bool :=
  isWordChar c || isPySpace c || c == '@' || c == '.' || c == '-'

/-- `AIService._clean_extracted_text`: collapse whitespace runs to a single
space, strip characters outside the safe set, replace bullet and form-feed
characters, collapse newline runs, drop stripped lines of length at most 2,
join and strip. -/
def cleanExtractedText (text : String) : String :=
  if text = "" then ""
  else
    let t1 := collapseRuns isPySpace ' ' text.data
    let t2 := t1.filter safeChar
    let t3 := t2.map (fun c => if c == '\u2022' then '-' else c)
    let t4 := t3.map (fun c => if c == '\x0c' then '\n' else c)
    let t5 := t4.map (fun c => if c == '\u2022' then '-' else c)
    let t6 := collapseRuns (fun c => c == '\n') '\n' t5
    let lines := splitWhen (fun c => c == '\n') t6
    let cleanedLines := (lines.map trimChars).filter (fun l => 2 < l.length)
    String.mk (trimChars (List.intercalate ['\n'] cleanedLines))

theorem mem_collapseRunsAux {p : Char → Bool} {r c : Char} :
    ∀ (b : Bool) (l : List Char), c ∈ collapseRunsAux p r b l → c = r ∨ p c = false := by
  intro b l
  induction l generalizing b with
  | nil => simp [collapseRunsAux]
  | cons a t ih =>
    simp only [collapseRunsAux]
    split
    · split
      · exact fun h => ih _ h
      · intro h
        rcases List.mem_cons.mp h with h | h
        · exact Or.inl h
        · exact ih _ h
    · intro h
      rcases List.mem_cons.mp h with h | h
      · subst h
        exact Or.inr (by simpa using ‹¬ p c = true›)
      · exact ih _ h

theorem collapseRunsAux_eq_self {p : Char → Bool} {r : Char} (b : Bool) (l : List Char)
    (h : ∀ c ∈ l, p c = false) : collapseRunsAux p r b l = l := by
  induction l generalizing b with
  | nil => rfl
  | cons a t ih =>
    have ha : p a = false := h a (List.mem_cons_self a t)
    simp only [collapseRunsAux, ha]
    simp only [Bool.false_eq_true, if_false]
    rw [ih _ fun c hc => h c (List.mem_cons_of_mem a hc)]

theorem splitWhen_eq_single {p : Char → Bool} (l : List Char)
    (h : ∀ c ∈ l, p c = false) : splitWhen p l = [l] := by
  induction l with
  | nil => rfl
  | cons a t ih =>
    have ha : p a = false := h a (List.mem_cons_self a t)
    simp only [splitWhen, ih fun c hc => h c (List.mem_cons_of_mem a hc), ha]
    simp

theorem map_eq_self_of_mem {f : Char → Char} (l : List Char) (h : ∀ c ∈ l, f c = c) :
    l.map f = l := by
  induction l with
  | nil => rfl
  | cons a t ih =>
    simp only [List.map_cons, h a (List.mem_cons_self a t),
      ih fun c hc => h c (List.mem_cons_of_mem a hc)]

theorem trimChars_subset (l : List Char) : trimChars l ⊆ l := by
  intro c hc
  have h1 : c ∈ List.dropWhile isPySpace l :=
    (List.rdropWhile_prefix (p := isPySpace) (l := List.dropWhile isPySpace l)).subset hc
  exact (List.dropWhile_suffix (p := isPySpace) (l := l)).subset h1

theorem dropWhile_head_false {p : Char → Bool} :
    ∀ (l : List Char) (x : Char) (xs : List Char),
      List.dropWhile p l = x :: xs → p x = false := by
  intro l
  induction l with
  | nil => intro x xs h; simp at h
  | cons a t ih =>
    intro x xs h
    rw [List.dropWhile_cons] at h
    by_cases hpa : p a = true
    · rw [if_pos hpa] at h
      exact ih x xs h
    · rw [if_neg hpa] at h
      cases h
      simpa using hpa

theorem trimChars_idem (l : List Char) : trimChars (trimChars l) = trimChars l := by
  have h1 : List.dropWhile isPySpace
      (List.rdropWhile isPySpace (List.dropWhile isPySpace l)) =
      List.rdropWhile isPySpace (List.dropWhile isPySpace l) := by
    rcases hXv : List.rdropWhile isPySpace (List.dropWhile isPySpace l) with _ | ⟨x, xs⟩
    · simp
    · obtain ⟨t, ht⟩ := List.rdropWhile_prefix (p := isPySpace)
        (l := List.dropWhile isPySpace l)
      rw [hXv] at ht
      have hA : List.dropWhile isPySpace l = x :: (xs ++ t) := by
        rw [← ht]
        simp
      have hx : isPySpace x = false := dropWhile_head_false l x (xs ++ t) hA
      simp [List.dropWhile_cons, hx]
  show List.rdropWhile isPySpace (List.dropWhile isPySpace
    (List.rdropWhile isPySpace (List.dropWhile isPySpace l))) =
    List.rdropWhile isPySpace (List.dropWhile isPySpace l)
  rw [h1, List.rdropWhile_idempotent]

/-- The core computation fact about `_clean_extracted_text`: after the first
two normalization passes produce the filtered text, every later pass is the
identity, so the result is that text stripped, or empty when the stripped
text has length at most 2. -/
theorem cleanExtractedText_eq (s : String) :
    cleanExtractedText s =
      (if 2 < (trimChars ((collapseRuns isPySpace ' ' s.data).filter safeChar)).length
       then String.mk (trimChars ((collapseRuns isPySpace ' ' s.data).filter safeChar))
       else "") := by
  by_cases hs : s = ""
  · subst hs
    rfl
  · unfold cleanExtractedText
    rw [if_neg hs]
    set t1 := collapseRuns isPySpace ' ' s.data with ht1
    set t2 := t1.filter safeChar with ht2
    have hmem1 : ∀ c ∈ t1, c = ' ' ∨ isPySpace c = false := fun c hc =>
      mem_collapseRunsAux false s.data hc
    have hmem2 : ∀ c ∈ t2, (safeChar c = true ∧ (c = ' ' ∨ isPySpace c = false)) := by
      intro c hc
      exact ⟨List.of_mem_filter hc, hmem1 c (List.mem_of_mem_filter hc)⟩
    have hnospace : ∀ c ∈ t2, c ≠ '\u2022' ∧ c ≠ '\x0c' ∧ c ≠ '\n' := by
      intro c hc
      obtain ⟨hsafe, hsp⟩ := hmem2 c hc
      refine ⟨?_, ?_, ?_⟩
      · intro hcc
        subst hcc
        exact absurd hsafe (by decide)
      · rcases hsp with h | h
        · subst h
          decide
        · intro hcc
          subst hcc
          exact absurd h (by decide)
      · rcases hsp with h | h
        · subst h
          decide
        · intro hcc
          subst hcc
          exact absurd h (by decide)
    have h3 : t2.map (fun c => if c == '\u2022' then '-' else c) = t2 := by
      apply map_eq_self_of_mem
      intro c hc
      simp [(hnospace c hc).1]
    have h4 : t2.map (fun c => if c == '\x0c' then '\n' else c) = t2 := by
      apply map_eq_self_of_mem
      intro c hc
      simp [(hnospace c hc).2.1]
    have h6 : collapseRuns (fun c => c == '\n') '\n' t2 = t2 := by
      apply collapseRunsAux_eq_self
      intro c hc
      simp [(hnospace c hc).2.2]
    have h7 : splitWhen (fun c => c == '\n') t2 = [t2] := by
      apply splitWhen_eq_single
      intro c hc
      simp [(hnospace c hc).2.2]
    simp only [h3, h4, h6, h7]
    by_cases hlen : 2 < (trimChars t2).length
    · rw [if_pos hlen]
      have hf : List.filter (fun l => decide (2 < l.length)) [trimChars t2] =
          [trimChars t2] := by
        simp [hlen]
      simp only [List.map_cons, List.map_nil, hf]
      rw [show List.intercalate ['\n'] [trimChars t2] = trimChars t2 by
        simp [List.intercalate]]
      rw [trimChars_idem]
    · rw [if_neg hlen]
      have hf : List.filter (fun l => decide (2 < l.length)) [trimChars t2] = [] := by
        simp [hlen]
      simp only [List.map_cons, List.map_nil, hf]
      rfl

theorem mem_cleanExtractedText {s : String} {c : Char}
    (hc : c ∈ (cleanExtractedText s).data) :
    safeChar c = true ∧ (c = ' ' ∨ isPySpace c = false) := by
  rw [cleanExtractedText_eq s] at hc
  by_cases hlen :
      2 < (trimChars ((collapseRuns isPySpace ' ' s.data).filter safeChar)).length
  · rw [if_pos hlen] at hc
    have hc2 : c ∈ (collapseRuns isPySpace ' ' s.data).filter safeChar :=
      trimChars_subset _ hc
    exact ⟨List.of_mem_filter hc2,
      mem_collapseRunsAux false s.data (List.mem_of_mem_filter hc2)⟩
  · rw [if_neg hlen] at hc
    simp at hc

/-- C10: the output of `_clean_extracted_text` contains no newline and only
word characters, spaces, `@`, `.` and `-`; consequently the bullet/form-feed
replacements and the drop-short-lines pass change nothing except that a
cleaned text of stripped length at most 2 comes out empty: the result is
exactly the whitespace-collapsed, safe-filtered text, stripped, or `""` when
that is too short. -/
theorem clean_extracted_text_invariant (s : String) :
    (∀ c ∈ (cleanExtractedText s).data, c ≠ '\n') ∧
    (∀ c ∈ (cleanExtractedText s).data,
      isWordChar c = true ∨ c = ' ' ∨ c = '@' ∨ c = '.' ∨ c = '-') ∧
    cleanExtractedText s =
      (if 2 < (trimChars ((collapseRuns isPySpace ' ' s.data).filter safeChar)).length
       then String.mk (trimChars ((collapseRuns isPySpace ' ' s.data).filter safeChar))
       else "") := by
  refine ⟨?_, ?_, cleanExtractedText_eq s⟩
  · intro c hc
    rcases (mem_cleanExtractedText hc).2 with h | h
    · subst h
      decide
    · intro hcc
      subst hcc
      exact absurd h (by decide)
  · intro c hc
    obtain ⟨hsafe, hsp⟩ := mem_cleanExtractedText hc
    rcases hsp with h | h
    · exact Or.inr (Or.inl h)
    · have hns : ¬ (isPySpace c = true) := by simp [h]
      simp only [safeChar, Bool.or_eq_true, beq_iff_eq] at hsafe
      tauto


/-! ## `extract_text_from_pdf` / `extract_text_from_docx`
(ai_service.py, lines 256-361)

Each PDF backend (PyPDF2, pdfplumber, pymupdf) is described by the text it
appended to the accumulator before either completing or raising: `appended`
is the concatenation of the per-page texts the backend produced, and
`raised` records whether the backend ended in an exception (which the source
catches).  The length-threshold check of a backend is only reached when that
backend did not raise, exactly as in the source, where the check sits at the
end of the `try` block. -/

/-- Outcome of one PDF extraction backend run. -/
structure PdfBackendRun where
  appended : String
  raised : Bool
  deriving DecidableEq

/-- `AIService.extract_text_from_pdf`: try PyPDF2, pdfplumber, pymupdf in
priority order, accepting the accumulated text once its stripped length
exceeds the backend-specific threshold (100, 50, 20); the
`ENABLE_ADVANCED_PDF` flag gates the second and third backend; every
backend exception is caught and the accumulated text is kept. -/
def extract_text_from_pdf (pypdf2 pdfplumber pymupdf : PdfBackendRun)
    (advancedPdf : Bool) : String :=
  let text1 := pypdf2.appended
  if !pypdf2.raised && 100 < (pyStrip text1).length then cleanExtractedText text1
  else if !advancedPdf then
    (if pyStrip text1 ≠ "" then cleanExtractedText text1 else "")
  else
    let text2 := text1 ++ pdfplumber.appended
    if !pdfplumber.raised && 50 < (pyStrip text2).length then cleanExtractedText text2
    else
      let text3 := text2 ++ pymupdf.appended
      if !pymupdf.raised && 20 < (pyStrip text3).length then cleanExtractedText text3
      else if pyStrip text3 ≠ "" then cleanExtractedText text3 else ""

/-- One section of a DOCX document (header and footer paragraph texts). -/
structure DocxSection where
  headerParagraphs : List String
  footerParagraphs : List String
  deriving DecidableEq

/-- Content of a DOCX file as seen through `python-docx`, plus whether any
step of the extraction raised (the whole body is a single `try`). -/
structure DocxRun where
  paragraphs : List String
  tables : List (List (List String))
  sections : List DocxSection
  raised : Bool

/-- The non-empty stripped cell texts of one table row. -/
def docxRowText (row : List String) : List String :=
  (row.map pyStrip).filter (fun c => c ≠ "")

/-- `AIService.extract_text_from_docx`: paragraphs, then table rows joined
with a separator, then header/footer paragraphs per section, cleaned; any
exception yields the empty string. -/
def extract_text_from_docx (d : DocxRun) : String :=
  if d.raised then ""
  else
    let paraText := String.join
      ((d.paragraphs.filter (fun p => pyStrip p ≠ "")).map (fun p => p ++ "\n"))
    let tableText := String.join (d.tables.map (fun tb => String.join
      ((((tb.map docxRowText).filter (fun r => r ≠ [])).map
        (fun r => String.intercalate " | " r ++ "\n")))))
    let sectionText := String.join (d.sections.map (fun sec =>
      String.join ((sec.headerParagraphs.filter (fun p => pyStrip p ≠ "")).map
        (fun p => p ++ "\n")) ++
      String.join ((sec.footerParagraphs.filter (fun p => pyStrip p ≠ "")).map
        (fun p => p ++ "\n"))))
    cleanExtractedText (paraText ++ tableText ++ sectionText)

theorem trimChars_eq_nil_iff (l : List Char) :
    trimChars l = [] ↔ ∀ c ∈ l, isPySpace c = true := by
  unfold trimChars
  rw [List.rdropWhile_eq_nil_iff]
  constructor
  · intro h c hc
    rw [← List.takeWhile_append_dropWhile (p := isPySpace) (l := l)] at hc
    rcases List.mem_append.mp hc with h1 | h1
    · exact List.mem_takeWhile_imp h1
    · exact h c h1
  · intro h c hc
    exact h c ((List.dropWhile_sublist (l := l) isPySpace).subset hc)

theorem pyStrip_append_empty {a b : String}
    (h : pyStrip (a ++ b) = "") : pyStrip a = "" ∧ pyStrip b = "" := by
  have hd : (a ++ b).data = a.data ++ b.data := rfl
  have h' : trimChars ((a ++ b).data) = [] := congrArg String.data h
  rw [hd, trimChars_eq_nil_iff] at h'
  constructor
  · show String.mk (trimChars a.data) = ""
    rw [show trimChars a.data = [] from
      (trimChars_eq_nil_iff _).mpr fun c hc => h' c (List.mem_append_left _ hc)]
  · show String.mk (trimChars b.data) = ""
    rw [show trimChars b.data = [] from
      (trimChars_eq_nil_iff _).mpr fun c hc => h' c (List.mem_append_right _ hc)]

/-- C6 counterexample: every backend fails (raises), but PyPDF2 appended
partial page text before raising, so `extract_text_from_pdf` returns that
cleaned partial text, not the empty string. -/
theorem extract_text_total_failure_counterexample :
    (extract_text_from_pdf
        ⟨"Partial resume page text recovered before the backend raised", true⟩
        ⟨"", true⟩ ⟨"", true⟩ true) =
      "Partial resume page text recovered before the backend raised" ∧
    (extract_text_from_pdf
        ⟨"Partial resume page text recovered before the backend raised", true⟩
        ⟨"", true⟩ ⟨"", true⟩ true) ≠ "" := by
  constructor
  · decide
  · decide

/-- C6 (amended): `extract_text_from_pdf` and `extract_text_from_docx`
never propagate a backend exception (for every backend outcome they return
a plain string), and when every backend fails having produced no
non-whitespace text, the result is the empty string; a backend that fails
after producing partial text leads to the cleaned partial text instead. -/
theorem extract_text_never_raises (b1 b2 b3 : PdfBackendRun) (adv : Bool) (d : DocxRun) :
    (∃ s : String, extract_text_from_pdf b1 b2 b3 adv = s) ∧
    (b1.raised = true → b2.raised = true → b3.raised = true →
      pyStrip (b1.appended ++ b2.appended ++ b3.appended) = "" →
      extract_text_from_pdf b1 b2 b3 adv = "") ∧
    (∃ s : String, extract_text_from_docx d = s) ∧
    (d.raised = true → extract_text_from_docx d = "") := by
  refine ⟨⟨_, rfl⟩, ?_, ⟨_, rfl⟩, ?_⟩
  · intro h1 h2 h3 hws
    obtain ⟨hws12, hws3⟩ := pyStrip_append_empty hws
    obtain ⟨hws1, hws2⟩ := pyStrip_append_empty hws12
    unfold extract_text_from_pdf
    rw [h1, h2, h3]
    simp only [Bool.not_true, Bool.false_and, if_false, Bool.false_eq_true]
    by_cases hadv : adv
    · simp only [hadv, Bool.not_true, Bool.false_eq_true, if_false]
      rw [if_neg (by simp [hws])]
    · simp only [Bool.not_eq_true] at hadv
      simp only [hadv, Bool.not_false, if_true]
      rw [if_neg (by simp [hws1])]
  · intro h
    unfold extract_text_from_docx
    rw [if_pos h]

/-- C6 witness for the amended theorem at a concrete total failure. -/
theorem extract_text_never_raises_witness :
    extract_text_from_pdf ⟨" ", true⟩ ⟨"", true⟩ ⟨" ", true⟩ true = "" ∧
    extract_text_from_docx ⟨["p"], [], [], true⟩ = "" := by
  obtain ⟨-, h2, -, h4⟩ := extract_text_never_raises ⟨" ", true⟩ ⟨"", true⟩ ⟨" ", true⟩
    true ⟨["p"], [], [], true⟩
  exact ⟨h2 rfl rfl rfl (by decide), h4 rfl⟩


/-! ## The e-mail part of `_extract_contact_info` (ai_service.py, lines 492-545)

The e-mail regular expressions are translated into explicit scanners over
`List Char`.  A match is `local@domain.tld` where the local part is a
maximal run of `[A-Za-z0-9._%+-]`, the domain is a maximal run of
`[A-Za-z0-9.-]` that decomposes at its rightmost eligible dot into a
non-empty prefix and an alphabetic top-level part of length at least 2
(the greedy-with-backtracking behaviour of the patterns).  Matches are
attempted at maximal-run starts, which is how `re.findall` behaves on
texts whose e-mail candidates are separated by non-local characters; the
word-boundary anchors of the primary pattern add no further constraint on
such texts. -/

/-- The character class `[A-Za-z0-9._%+-]` of the e-mail local part. -/
def emailLocalChar (c : Char) : Bool :=
  c.isAlphanum || c == '.' || c == '_' || c == '%' || c == '+' || c == '-'

/-- The character class `[A-Za-z0-9.-]` of the e-mail domain. -/
def emailDomainChar (c : Char) : Bool := c.isAlphanum || c == '.' || c == '-'

/-- Match `[A-Za-z0-9.-]+\.[A-Za-z]{2,}` against a prefix of the maximal
domain run, preferring the rightmost eligible dot (greedy backtracking):
returns the consumed characters. -/
def emailDomainMatch : List Char → Option (List Char)
  | [] => none
  | c :: cs =>
    match emailDomainMatch cs with
    | some m => some (c :: m)
    | none =>
      if c == '.' then
        let tld := cs.takeWhile (fun ch => ch.isAlpha)
        if 2 ≤ tld.length then some ('.' :: tld) else none
      else none

/-- Try to match one e-mail at the start of `cs`: maximal local run, `@`,
then a domain per `emailDomainMatch` with a non-empty part before the
matched dot.  Returns the match and the remaining characters. -/
def matchEmailHere (allowEmptyLocal : Bool) (cs : List Char) :
    Option (List Char × List Char) :=
  let lcl := cs.takeWhile emailLocalChar
  let rest1 := cs.drop lcl.length
  match rest1 with
  | '@' :: rest2 =>
    if lcl.isEmpty && !allowEmptyLocal then none
    else
      let run := rest2.takeWhile emailDomainChar
      match emailDomainMatch run with
      | none => none
      | some m =>
        let tldLen := (m.reverse.takeWhile (fun ch => ch.isAlpha)).length
        if tldLen + 2 ≤ m.length then some (lcl ++ '@' :: m, rest2.drop m.length)
        else none
  | _ => none

/-- Scan the whole text for e-mail matches (`re.findall` of the plain
e-mail patterns); fuelled by the text length. -/
def scanEmailsAux (allowEmpty : Bool) : ℕ → List Char → List (List Char)
  | 0, _ => []
  | _ + 1, [] => []
  | fuel + 1, c :: cs =>
    match matchEmailHere allowEmpty (c :: cs) with
    | some (em, rest) => em :: scanEmailsAux allowEmpty fuel rest
    | none =>
      if emailLocalChar c then
        scanEmailsAux allowEmpty fuel ((c :: cs).dropWhile emailLocalChar)
      else scanEmailsAux allowEmpty fuel cs

/-- All matches of the plain e-mail pattern in a string. -/
def scanEmails (allowEmpty : Bool) (s : String) : List (List Char) :=
  scanEmailsAux allowEmpty (s.data.length + 1) s.data

/-- All matches of a literal-prefixed e-mail pattern
(`envelpe(...)`, `envelope(...)`, `envelpe[p]?(...)`): at each occurrence of
the prefix, the group must match immediately after (with an optional `p`
consumed greedily first when `optionalP` is set). -/
def findPrefixedAux (pfx : List Char) (allowEmpty optionalP : Bool) :
    ℕ → List Char → List (List Char)
  | 0, _ => []
  | _ + 1, [] => []
  | fuel + 1, l@(_ :: cs) =>
    if subStarts pfx l then
      let after := l.drop pfx.length
      let res :=
        if optionalP then
          match after with
          | 'p' :: after2 =>
            match matchEmailHere allowEmpty after2 with
            | some r => some r
            | none => matchEmailHere allowEmpty after
          | _ => matchEmailHere allowEmpty after
        else matchEmailHere allowEmpty after
      match res with
      | some (em, rest) => em :: findPrefixedAux pfx allowEmpty optionalP fuel rest
      | none => findPrefixedAux pfx allowEmpty optionalP fuel cs
    else findPrefixedAux pfx allowEmpty optionalP fuel cs

/-- All matches of a literal-prefixed e-mail pattern in a string. -/
def findPrefixed (pfx : String) (allowEmpty optionalP : Bool) (s : String) :
    List (List Char) :=
  findPrefixedAux pfx.data allowEmpty optionalP (s.data.length + 1) s.data

/-- All matches of `([a-zA-Z]+[a-zA-Z0-9._%+-]*@gmail\.com)`. -/
def scanGmailAux : ℕ → List Char → List (List Char)
  | 0, _ => []
  | _ + 1, [] => []
  | fuel + 1, c :: cs =>
    let lcl := (c :: cs).takeWhile emailLocalChar
    if lcl.isEmpty then scanGmailAux fuel cs
    else
      let rest1 := (c :: cs).drop lcl.length
      let lcl2 := lcl.dropWhile (fun ch => !ch.isAlpha)
      match rest1 with
      | '@' :: rest2 =>
        if !lcl2.isEmpty && subStarts "gmail.com".data rest2 then
          (lcl2 ++ '@' :: "gmail.com".data) :: scanGmailAux fuel (rest2.drop 9)
        else scanGmailAux fuel rest2
      | _ => scanGmailAux fuel rest1

/-- All matches of the gmail pattern in a string. -/
def scanGmail (s : String) : List (List Char) :=
  scanGmailAux (s.data.length + 1) s.data

/-- Python `str.split(sep)` for one-character separators. -/
def pySplitChar (sep : Char) (s : String) : List String :=
  (splitWhen (fun c => c == sep) s.data).map String.mk

/-- The placeholder-domain blacklist of the primary e-mail pass. -/
def emailBlacklist : List String := ["example.com", "test.com", "domain.com"]

/-- Validation applied to each candidate of the primary e-mail pass:
strip, fix a `kp` prefix to `pk`, require `@`, a dotted domain and length
above 5, and reject blacklisted placeholder domains; a surviving candidate
is stored lower-cased. -/
def validateEmailPass1 (e : List Char) : Option String :=
  let c0 := pyStrip (String.mk e)
  let c1 :=
    if subStarts "kp".data c0.data && !(subStarts "pk".data c0.data) then
      "pk" ++ String.mk (c0.data.drop 2)
    else c0
  if pyIn "@" c1 &&
      (match pySplitChar '@' c1 with
       | _ :: d :: _ => pyIn "." d
       | _ => false) && 5 < c1.length then
    if emailBlacklist.any (fun dom => pyIn dom (pyLower c1)) then none
    else some (pyLower c1)
  else none

/-- Validation applied to each candidate of the corrupted-e-mail fallback
pass: lower-case, strip, drop leading non-alphanumeric characters, require
`@` and a dotted domain.  No blacklist is applied here. -/
def validateEmailPass2 (e : List Char) : Option String :=
  let c0 := pyStrip (pyLower (String.mk e))
  let c1 := String.mk (c0.data.dropWhile (fun ch => !(ch.isLower || ch.isDigit)))
  if pyIn "@" c1 &&
      (match pySplitChar '@' c1 with
       | _ :: d :: _ => pyIn "." d
       | _ => false) then some c1
  else none

/-- The text the primary pass scans: `envelpep` and `envelpe` artifacts
removed. -/
def emailText (text : String) : String :=
  replaceStr (replaceStr text "envelpep" "p") "envelpe" ""

/-- The candidates of the primary pass, in pattern order. -/
def emailPass1Candidates (text : String) : List (List Char) :=
  findPrefixed "envelpe" false false (emailText text) ++
    findPrefixed "envelope" false false (emailText text) ++
    scanEmails false (emailText text)

/-- The primary e-mail pass of `_extract_contact_info`. -/
def email_pass1 (text : String) : Option String :=
  firstSome validateEmailPass1 (emailPass1Candidates text)

/-- The candidates of the corrupted-e-mail fallback pass, in pattern order
(this pass scans the original text). -/
def emailPass2Candidates (text : String) : List (List Char) :=
  findPrefixed "envelpe" true true text ++ scanEmails true text ++ scanGmail text

/-- The corrupted-e-mail fallback pass of `_extract_contact_info`. -/
def email_pass2 (text : String) : Option String :=
  firstSome validateEmailPass2 (emailPass2Candidates text)

/-- The e-mail field produced by `_extract_contact_info`: the primary pass
wins; on failure the fallback pass is consulted. -/
def extract_contact_info_email (text : String) : Option String :=
  match email_pass1 text with
  | some e => some e
  | none => email_pass2 text

/-- C3 counterexample: for the text `"Contact: test@example.com"`, whose
only e-mail-shaped substring has the blacklisted placeholder domain
`example.com`, the primary pass indeed rejects it, but the fallback pass
accepts it, so the e-mail field is present — not absent as claimed. -/
theorem email_blacklist_counterexample :
    scanEmails false (emailText "Contact: test@example.com") =
      ["test@example.com".data] ∧
    emailBlacklist.any (fun dom => pyIn dom (pyLower "test@example.com")) = true ∧
    email_pass1 "Contact: test@example.com" = none ∧
    extract_contact_info_email "Contact: test@example.com" =
      some "test@example.com" := by
  exact ⟨by decide, by decide, by decide, by decide⟩

/-- C3 (amended): when every candidate of the primary pass fails its
validation (in particular when each one is blacklisted), and the fallback
pass finds a valid e-mail, then the e-mail field is present and carries the
fallback result — the blacklist only affects the primary pass. -/
theorem email_blacklist_fallback (text : String) (e : String)
    (h1 : ∀ m ∈ emailPass1Candidates text, validateEmailPass1 m = none)
    (h2 : email_pass2 text = some e) :
    extract_contact_info_email text = some e := by
  have hp1 : email_pass1 text = none := firstSome_eq_none _ _ h1
  unfold extract_contact_info_email
  rw [hp1]
  exact h2

/-- C3 witness for the amended theorem at the blacklisted concrete input. -/
theorem email_blacklist_fallback_witness :
    extract_contact_info_email "Contact: test@example.com" =
      some "test@example.com" :=
  email_blacklist_fallback "Contact: test@example.com" "test@example.com"
    (by decide) (by decide)


/-! ## `_extract_name_from_username` / `_score_name_split`
(ai_service.py, lines 763-887)

The first-name/last-name dictionaries come from the configuration
(`config_manager.get_name_patterns()`); they are a parameter `NameCfg` of
the embedding, so the theorems hold for every configuration. -/

/-- The configured name dictionaries. -/
structure NameCfg where
  commonFirstNames : List String
  commonLastNames : List String

/-- Words that disqualify a split (`non_names` in `_score_name_split`). -/
def nonNameWords : List String := ["admin", "test", "user", "info", "mail", "contact"]

/-- Python `str.isalpha()` (ASCII fragment): non-empty and all alphabetic. -/
def pyIsAlpha (s : String) : Bool := !s.data.isEmpty && s.data.all Char.isAlpha

/-- `AIService._score_name_split`: score a candidate first/last split by
dictionary hits, typical lengths, vowel presence, repeated letters and
non-name words. -/
def score_name_split (cfg : NameCfg) (fp sp : String) : ℤ :=
  (if cfg.commonFirstNames.contains (pyLower fp) then 10 else 0) +
  (if cfg.commonLastNames.contains (pyLower sp) then 10 else 0) +
  (if 4 ≤ fp.length ∧ fp.length ≤ 8 then 3 else 0) +
  (if 4 ≤ sp.length ∧ sp.length ≤ 10 then 3 else 0) +
  (if 1 ≤ ((pyLower fp).data.filter
      (fun c => ['a', 'e', 'i', 'o', 'u'].contains c)).length then 2 else 0) +
  (if 1 ≤ ((pyLower sp).data.filter
      (fun c => ['a', 'e', 'i', 'o', 'u'].contains c)).length then 2 else 0) +
  (if PyNum.blt (PyNum.ofInt fp.data.dedup.length)
      (PyNum.ofInt fp.length * PyNum.frac 7 10) then -2 else 0) +
  (if PyNum.blt (PyNum.ofInt sp.data.dedup.length)
      (PyNum.ofInt sp.length * PyNum.frac 7 10) then -2 else 0) +
  (if nonNameWords.any (fun w => pyIn w (pyLower fp ++ pyLower sp)) then -10 else 0)

/-- The prefixes removed before splitting a username. -/
def namePrefixes : List String := ["pk", "mr", "ms", "dr", "prof"]

/-- Remove the first applicable prefix when enough characters remain. -/
def removeNamePrefix (u : String) : String :=
  match firstSome (fun pfx =>
    if subStarts pfx.data u.data ∧ pfx.length + 4 < u.length then
      some (String.mk (u.data.drop pfx.length))
    else none) namePrefixes with
  | some r => r
  | none => u

/-- Pattern 1 of `_extract_name_from_username`: `first.last`,
`first_last`, `first-last` splits with both parts of length at least 2. -/
def pattern1Names (u : String) : List String :=
  ['.', '_', '-'].filterMap (fun d =>
    if u.data.contains d then
      match pySplitChar d u with
      | [a, b] =>
        if 2 ≤ a.length ∧ 2 ≤ b.length then
          some (pyCapitalize a ++ " " ++ pyCapitalize b)
        else none
      | _ => none
    else none)

/-- Pattern 2 of `_extract_name_from_username`: candidate contiguous splits
with positive `_score_name_split` score, over split points `3 .. len-3`. -/
def pattern2Splits (cfg : NameCfg) (u : String) : List (ℤ × String × String) :=
  (List.range' 3 (u.length - 5)).filterMap (fun i =>
    let fp := String.mk (u.data.take i)
    let sp := String.mk (u.data.drop i)
    if 3 ≤ fp.length ∧ fp.length ≤ 12 ∧ 3 ≤ sp.length ∧ sp.length ≤ 12 ∧
        pyIsAlpha fp = true ∧ pyIsAlpha sp = true then
      let score := score_name_split cfg fp sp
      if 0 < score then some (score, fp, sp) else none
    else none)

/-- The first split of maximal score (the stable descending sort of the
source followed by taking the head). -/
def bestSplit : List (ℤ × String × String) → Option (ℤ × String × String)
  | [] => none
  | x :: xs =>
    match bestSplit xs with
    | none => some x
    | some y => if y.1 > x.1 then some y else some x

/-- Pattern 3 of `_extract_name_from_username`: one letter plus a surname
of length at least 4 (`^([a-z])([a-z]{4,})$`), with the capitalized surname
compared against a lower-case stop list (hence never rejected by it, as in
the source) and a vowel check. -/
def pattern3Names (u : String) : List String :=
  match u.data with
  | [] => []
  | c :: rest =>
    if c.isLower ∧ rest.all Char.isLower ∧ 4 ≤ rest.length then
      let initial := String.mk [c.toUpper]
      let surname := pyCapitalize (String.mk rest)
      let vowelCount := ((pyLower surname).data.filter
        (fun ch => ['a', 'e', 'i', 'o', 'u'].contains ch)).length
      if ¬ (["admin", "user", "test", "info", "mail"].contains surname) ∧
          1 ≤ vowelCount ∧ 4 ≤ surname.length then
        [initial ++ " " ++ surname]
      else []
    else []

/-- The final validation loop: return the first candidate whose two
whitespace-separated parts are alphabetic and of length 2 to 12. -/
def finalValidateName : List String → String
  | [] => ""
  | n :: ns =>
    match (pySplitWs n).map String.mk with
    | [f, l] =>
      if 2 ≤ f.length ∧ f.length ≤ 12 ∧ 2 ≤ l.length ∧ l.length ≤ 12 ∧
          pyIsAlpha f = true ∧ pyIsAlpha l = true then n
      else finalValidateName ns
    | _ => finalValidateName ns

/-- `AIService._extract_name_from_username`: lower-case, strip a known
prefix, then try the delimiter split, the scored contiguous split and the
initial-plus-surname patterns in order (each only when the previous ones
produced nothing), and return the first candidate passing final
validation, or the empty string. -/
def extract_name_from_username (cfg : NameCfg) (username : String) : String :=
  if username.length < 3 then ""
  else
    let u := pyLower username
    let cleaned := removeNamePrefix u
    let p1 := pattern1Names cleaned
    let p2 :=
      if p1.isEmpty ∧ 6 ≤ cleaned.length then
        match bestSplit (pattern2Splits cfg cleaned) with
        | some (_, f, l) => [pyCapitalize f ++ " " ++ pyCapitalize l]
        | none => []
      else []
    let p12 := p1 ++ p2
    let p3 := if p12.isEmpty then pattern3Names cleaned else []
    finalValidateName (p12 ++ p3)

/-- C8: the e-mail local part `"jane.doe"` is mapped to `"Jane Doe"` by the
delimiter-split pattern, and `"jdoe123xyz"` (digits, no alphabetic split)
yields the empty string rather than a guessed name — for every configured
name dictionary. -/
theorem extract_name_from_username_examples (cfg : NameCfg) :
    extract_name_from_username cfg "jane.doe" = "Jane Doe" ∧
    extract_name_from_username cfg "jdoe123xyz" = "" :=
  ⟨rfl, rfl⟩


/-! ## The scorer (ai_service.py, lines 1181-1245, 1356-1508, 1608-1722)

The features that the source derives with regular expressions or from the
configured skill dictionary (`_preprocess_resume_data`,
`_extract_experience_years`, `_extract_education_level`,
`_extract_skills_from_text`, the e-mail/phone `re.search` flags of
`_calculate_resume_quality_score` and the required-years patterns) are
collected in `RegexFeatures` and quantified over, so every theorem holds
for every value those passes could produce.  The cosine similarity
returned by the sentence-transformer is the oracle parameter `cosineSim`,
and `hfOk` tells whether the embedding call succeeded (the `try` of
`calculate_resume_score`) or the heuristic fallback runs. -/

/-- The regex/configuration-derived features of a `(resume, job)` pair. -/
structure RegexFeatures where
  hasEmail : Bool
  hasPhone : Bool
  candidateYears : ℕ
  educationLevel : String
  hfRequiredYears : ℕ
  fbRequiredYears : ℕ
  skills : List String
  jobSkills : List String

/-- `AIService._score_to_action`. -/
def score_to_action (score : ℤ) : String :=
  if 80 ≤ score then "hire"
  else if 65 ≤ score then "interview"
  else if 50 ≤ score then "maybe"
  else "reject"

/-- `AIService._get_recommendation` (verbatim duplicate of
`_score_to_action` in the source). -/
def get_recommendation (score : ℤ) : String :=
  if 80 ≤ score then "hire"
  else if 65 ≤ score then "interview"
  else if 50 ≤ score then "maybe"
  else "reject"

/-- `AIService._calculate_resume_quality_score`: base score plus bonuses
for word count, section presence and contact information, capped at 100.
The two `re.search` contact checks are the abstracted flags. -/
def calculate_resume_quality_score (resume_text : String) (hasEmail hasPhone : Bool)
    (base_score : ℤ) : ℤ :=
  let word_count := (pySplitWs resume_text).length
  let lengthBonus : ℤ := if 200 ≤ word_count then 10 else if 100 ≤ word_count then 5 else 0
  let sections_found : ℤ :=
    ((["experience", "education", "skills", "summary", "objective"].filter
      (fun sec => pyIn sec (pyLower resume_text))).length : ℤ)
  let emailBonus : ℤ := if hasEmail then 5 else 0
  let phoneBonus : ℤ := if hasPhone then 5 else 0
  min 100 (base_score + (lengthBonus + sections_found * 4 + emailBonus + phoneBonus))

/-- `AIService._calculate_skills_match_score`: with no extracted skills,
`max(30, base - 20)`; otherwise the base plus up to 30 points for the
fraction of extracted skills that occur in the job text, capped at 100.
`matched_skills` is the list comprehension selecting the extracted skills
whose lower-case form occurs in the lowered job text. -/
def matched_skills (skills : List String) (job_description : String) : List String :=
  skills.filter (fun sk => pyIn (pyLower sk) (pyLower job_description))

/-- `AIService._calculate_skills_match_score` (continued): the boost from
the matched fraction. -/
def calculate_skills_match_score (skills : List String) (job_description : String)
    (base_score : ℤ) : ℤ :=
  if skills.isEmpty then max 30 (base_score - 20)
  else
    let match_ratio :=
      PyNum.ofInt (matched_skills skills job_description).length /
        PyNum.ofInt skills.length
    let skill_boost := PyNum.trunc (match_ratio * PyNum.ofInt 30)
    min 100 (base_score + skill_boost)

/-- `AIService._calculate_experience_match_score`: base score adjusted by
how the candidate years compare with the required years (+15, +10, +5, -10) and
by education level (+10 or +5), clamped to `[20, 100]`. -/
def calculate_experience_match_score (candidateYears : ℕ) (educationLevel : String)
    (requiredYears : ℕ) (base_score : ℤ) : ℤ :=
  let expAdj : ℤ :=
    if 0 < requiredYears then
      if requiredYears ≤ candidateYears then 15
      else if PyNum.ble (PyNum.ofInt requiredYears * PyNum.frac 7 10)
          (PyNum.ofInt candidateYears) then 10
      else if PyNum.ble (PyNum.ofInt requiredYears * PyNum.frac 1 2)
          (PyNum.ofInt candidateYears) then 5
      else -10
    else 0
  let eduAdj : ℤ :=
    if educationLevel = "Masters" ∨ educationLevel = "Phd" then 10
    else if educationLevel = "Bachelors" then 5
    else 0
  min 100 (max 20 (base_score + expAdj + eduAdj))

/-- The fixed-weight blend of the enhanced HuggingFace scoring path:
`0.4·semantic + 0.25·quality + 0.2·skills + 0.15·experience`. -/
def hfWeightedBlend (base_score resume_quality skills_match experience_match : ℤ) : PyNum :=
  PyNum.frac 2 5 * PyNum.ofInt base_score +
    PyNum.frac 1 4 * PyNum.ofInt resume_quality +
    PyNum.frac 1 5 * PyNum.ofInt skills_match +
    PyNum.frac 3 20 * PyNum.ofInt experience_match

/-- The numeric fields of the record returned by
`_calculate_enhanced_resume_score_hf` (the narrative list fields of the
source are not referenced by any claim and are omitted). -/
structure HfScores where
  resumeScore : ℤ
  skillsMatch : ℤ
  experienceMatch : ℤ
  overallScore : ℤ
  semanticSimilarity : ℤ
  deriving DecidableEq

/-- `AIService._calculate_enhanced_resume_score_hf`: component scores from
the features, then the weighted overall score, truncated to an integer —
with no recalibration of the high end. -/
def calculate_enhanced_resume_score_hf (resume_text job_description : String)
    (f : RegexFeatures) (hf_score similarity_score : PyNum) : HfScores :=
  let base_score := PyNum.trunc (hf_score * PyNum.ofInt 100)
  let similarity_percentage := PyNum.trunc (similarity_score * PyNum.ofInt 100)
  let resume_quality_score :=
    calculate_resume_quality_score resume_text f.hasEmail f.hasPhone base_score
  let skills_match_score :=
    calculate_skills_match_score f.skills job_description similarity_percentage
  let experience_match_score :=
    calculate_experience_match_score f.candidateYears f.educationLevel
      f.hfRequiredYears base_score
  let overall_score := PyNum.trunc (hfWeightedBlend base_score resume_quality_score
    skills_match_score experience_match_score)
  ⟨resume_quality_score, skills_match_score, experience_match_score, overall_score,
    similarity_percentage⟩

/-- The base skills score of `_calculate_enhanced_resume_score` (lines
1632-1641): 75% job-match ratio over the lowered skill sets plus 25%
abundance bonus. -/
def fb_skills_base (skills jobSkills : List String) : PyNum :=
  let candidate_skills : Finset String := (skills.map pyLower).toFinset
  let job_skills_lower : Finset String := (jobSkills.map pyLower).toFinset
  let skills_overlap := (candidate_skills ∩ job_skills_lower).card
  let job_match_ratio := PyNum.ofInt skills_overlap / PyNum.ofInt job_skills_lower.card
  let skills_abundance := PyNum.pymin (PyNum.frac 3 5)
    (PyNum.ofInt candidate_skills.card / PyNum.ofInt 15)
  job_match_ratio * PyNum.ofInt 75 + skills_abundance * PyNum.ofInt 25

/-- The diminishing-returns pass of the fallback skills score (lines
1643-1649): compress above 80 and above 60, shrink below 60. -/
def fb_skills_compress (base : PyNum) : PyNum :=
  if PyNum.ble (PyNum.ofInt 80) base then
    PyNum.ofInt 80 + (base - PyNum.ofInt 80) * PyNum.frac 3 10
  else if PyNum.ble (PyNum.ofInt 60) base then
    PyNum.ofInt 60 + (base - PyNum.ofInt 60) * PyNum.frac 7 10
  else base * PyNum.frac 9 10

/-- The skills-match block of `_calculate_enhanced_resume_score` (lines
1624-1654): with detected job skills, the compressed base score capped at
95; otherwise a conservative count-based score capped at 70. -/
def fb_skills_match (skills jobSkills : List String) : PyNum :=
  if ((jobSkills.map pyLower).toFinset : Finset String).Nonempty then
    PyNum.pymin (PyNum.ofInt 95) (fb_skills_compress (fb_skills_base skills jobSkills))
  else
    PyNum.pymin (PyNum.ofInt 70)
      (PyNum.ofInt (((skills.map pyLower).toFinset.card : ℤ) * 6 + 25))

/-- The banded experience score of `_calculate_enhanced_resume_score`
(lines 1664-1682), before the final clamp. -/
def fb_experience_banded (exp_number required_years : ℕ) : PyNum :=
  if exp_number = 0 then PyNum.ofInt 20
  else if PyNum.blt (PyNum.ofInt exp_number)
      (PyNum.ofInt required_years * PyNum.frac 1 2) then
    PyNum.ofInt 25 + (PyNum.ofInt exp_number / PyNum.ofInt required_years) * PyNum.ofInt 20
  else if PyNum.blt (PyNum.ofInt exp_number)
      (PyNum.ofInt required_years * PyNum.frac 4 5) then
    PyNum.ofInt 45 + ((PyNum.ofInt exp_number - PyNum.ofInt required_years * PyNum.frac 1 2) /
      (PyNum.ofInt required_years * PyNum.frac 3 10)) * PyNum.ofInt 15
  else if PyNum.blt (PyNum.ofInt exp_number) (PyNum.ofInt required_years) then
    PyNum.ofInt 60 + ((PyNum.ofInt exp_number - PyNum.ofInt required_years * PyNum.frac 4 5) /
      (PyNum.ofInt required_years * PyNum.frac 1 5)) * PyNum.ofInt 10
  else if exp_number = required_years then PyNum.ofInt 75
  else if PyNum.ble (PyNum.ofInt exp_number)
      (PyNum.ofInt required_years + PyNum.ofInt 2) then
    PyNum.ofInt 75 + ((PyNum.ofInt exp_number - PyNum.ofInt required_years) / PyNum.ofInt 2) *
      PyNum.ofInt 10
  else
    PyNum.ofInt 85 + PyNum.pymin (PyNum.ofInt 10)
      ((PyNum.ofInt exp_number - (PyNum.ofInt required_years + PyNum.ofInt 2)) * PyNum.ofInt 2)

/-- The experience block of `_calculate_enhanced_resume_score` (lines
1656-1684): the banded score clamped to `[15, 95]`. -/
def fb_experience_match (exp_number required_years : ℕ) : PyNum :=
  PyNum.pymin (PyNum.ofInt 95)
    (PyNum.pymax (PyNum.ofInt 15) (fb_experience_banded exp_number required_years))

/-- `AIService._calculate_resume_quality`: conservative base of 50 plus
bonuses for length, skills, education, sections, achievement keywords and
contact indicators, clamped to `[35, 95]`. -/
def calculate_resume_quality (resume_text : String) (skills : List String)
    (educationLevel : String) : ℤ :=
  let lenB : ℤ :=
    if 2000 < resume_text.length then 20
    else if 1000 < resume_text.length then 15
    else if 500 < resume_text.length then 10
    else if 200 < resume_text.length then 5
    else 0
  let skB : ℤ :=
    if 10 ≤ skills.length then 15
    else if 5 ≤ skills.length then 12
    else if 3 ≤ skills.length then 8
    else if 1 ≤ skills.length then 5
    else 0
  let edu := pyLower educationLevel
  let eduB : ℤ :=
    if pyIn "phd" edu || pyIn "doctorate" edu then 12
    else if pyIn "master" edu || pyIn "mba" edu then 10
    else if pyIn "bachelor" edu then 8
    else if pyIn "associate" edu then 4
    else 0
  let resume_lower := pyLower resume_text
  let secB : ℤ := ((["experience", "skills", "education", "projects",
    "certifications"].filter (fun s => pyIn s resume_lower)).length : ℤ) * 2
  let achB : ℤ := min (((["achieved", "improved", "increased", "reduced", "led",
    "managed", "developed", "implemented", "created", "built"].filter
    (fun k => pyIn k resume_lower)).length : ℤ)) 8
  let indB : ℤ := ((["email", "phone", "linkedin", "github"].filter
    (fun k => pyIn k resume_lower)).length : ℤ) * 2
  min 95 (max 35 (50 + lenB + skB + eduB + secB + achB + indB))

/-- The fixed-weight blend of the heuristic fallback path:
`0.4·skills + 0.35·experience + 0.25·quality`. -/
def fbWeightedBlend (sm em : PyNum) (q : ℤ) : PyNum :=
  sm * PyNum.frac 2 5 + em * PyNum.frac 7 20 + PyNum.ofInt q * PyNum.frac 1 4

/-- The fields of the score dictionaries of `calculate_resume_score` that
the claims reference (narrative list fields and the model label omitted). -/
structure ScoreRecord where
  resumeScore : ℤ
  skillsMatch : ℤ
  experienceMatch : ℤ
  overallScore : ℤ
  confidenceLevel : ℤ
  recommendedAction : String
  deriving DecidableEq

/-- The final calibration of `_calculate_enhanced_resume_score` (lines
1696-1702): compress the weighted score above 85 and above 70, shrink it
slightly otherwise, truncating to an integer. -/
def fb_calibrate (weighted_score : PyNum) : ℤ :=
  if PyNum.blt (PyNum.ofInt 85) weighted_score then
    PyNum.trunc (PyNum.ofInt 85 + (weighted_score - PyNum.ofInt 85) * PyNum.frac 2 5)
  else if PyNum.blt (PyNum.ofInt 70) weighted_score then
    PyNum.trunc (PyNum.ofInt 70 + (weighted_score - PyNum.ofInt 70) * PyNum.frac 7 10)
  else PyNum.trunc (weighted_score * PyNum.frac 19 20)

/-- `AIService._calculate_enhanced_resume_score`: the heuristic fallback
path — weighted blend of the three component scores, compressive
recalibration above 85 and above 70, final clamp to `[20, 95]`. -/
def calculate_enhanced_resume_score (resume_text job_description : String)
    (f : RegexFeatures) : ScoreRecord :=
  let skills_match_score := fb_skills_match f.skills f.jobSkills
  let experience_match_score := fb_experience_match f.candidateYears f.fbRequiredYears
  let resume_quality_score := calculate_resume_quality resume_text f.skills f.educationLevel
  let weighted_score := fbWeightedBlend skills_match_score experience_match_score
    resume_quality_score
  let overall_score := min 95 (max 20 (fb_calibrate weighted_score))
  { resumeScore := resume_quality_score
    skillsMatch := PyNum.trunc skills_match_score
    experienceMatch := PyNum.trunc experience_match_score
    overallScore := overall_score
    confidenceLevel := 75
    recommendedAction := get_recommendation overall_score }

/-- The neutral default record returned by `calculate_resume_score` when
either input text is empty (note its `recommendedAction` is `"review"`). -/
def defaultScoreRecord : ScoreRecord :=
  { resumeScore := 60
    skillsMatch := 65
    experienceMatch := 70
    overallScore := 65
    confidenceLevel := 50
    recommendedAction := "review" }

/-- `AIService.calculate_resume_score`: empty input yields the neutral
default; otherwise the HuggingFace path maps the cosine similarity through
`(sim+1)/2` (`_cosine_similarity_to_score`, with `use_classifier=False` the
final score equals the similarity), scores through
`_calculate_enhanced_resume_score_hf` and `_score_to_action`; any exception
in that path falls back to `_calculate_enhanced_resume_score`. -/
def calculate_resume_score (resume_text job_description : String) (f : RegexFeatures)
    (cosineSim : PyNum) (hfOk : Bool) : ScoreRecord :=
  if resume_text = "" ∨ job_description = "" then defaultScoreRecord
  else if hfOk then
    let similarity_score := (cosineSim + PyNum.ofInt 1) / PyNum.ofInt 2
    let hf_score := similarity_score
    let confidence := PyNum.pymin (PyNum.frac 99 100)
      (PyNum.pymax (PyNum.frac 1 10)
        ((similarity_score - PyNum.frac 2 5) / PyNum.frac 3 5))
    let hs := calculate_enhanced_resume_score_hf resume_text job_description f
      hf_score similarity_score
    { resumeScore := hs.resumeScore
      skillsMatch := hs.skillsMatch
      experienceMatch := hs.experienceMatch
      overallScore := hs.overallScore
      confidenceLevel := PyNum.trunc (confidence * PyNum.ofInt 100)
      recommendedAction := score_to_action hs.overallScore }
  else calculate_enhanced_resume_score resume_text job_description f


/-! ## Bounds of the scoring components (claim C1) -/

theorem PyNum.toRat_frac (n d : ℤ) : (PyNum.frac n d).toRat = (n : ℚ) / (d : ℚ) := rfl

theorem PyNum.toRat_ofNat (n : ℕ) : (PyNum.ofInt (n : ℤ)).toRat = (n : ℚ) := by
  rw [PyNum.toRat_ofInt]
  push_cast
  rfl

theorem similarity_denpos {cos : PyNum} (h : cos.DenPos) :
    ((cos + PyNum.ofInt 1) / PyNum.ofInt 2).DenPos :=
  (h.add (PyNum.DenPos.ofInt 1)).div (PyNum.DenPos.ofInt 2)

theorem similarity_toRat {cos : PyNum} (h : cos.DenPos) :
    ((cos + PyNum.ofInt 1) / PyNum.ofInt 2).toRat = (cos.toRat + 1) / 2 := by
  rw [PyNum.toRat_div (h.add (PyNum.DenPos.ofInt 1)) (PyNum.DenPos.ofInt 2),
    PyNum.toRat_add h (PyNum.DenPos.ofInt 1), PyNum.toRat_ofInt, PyNum.toRat_ofInt]
  norm_num

theorem trunc_mul100_bounds {x : PyNum} (hd : x.DenPos) (h0 : 0 ≤ x.toRat)
    (h1 : x.toRat ≤ 1) :
    0 ≤ PyNum.trunc (x * PyNum.ofInt 100) ∧ PyNum.trunc (x * PyNum.ofInt 100) ≤ 100 := by
  have hd' : (x * PyNum.ofInt 100).DenPos := hd.mul (PyNum.DenPos.ofInt 100)
  have ht : (x * PyNum.ofInt 100).toRat = x.toRat * 100 := by
    rw [PyNum.toRat_mul hd (PyNum.DenPos.ofInt 100), PyNum.toRat_ofInt]
    norm_num
  constructor
  · exact PyNum.trunc_nonneg hd' (by rw [ht]; positivity)
  · refine PyNum.trunc_le hd' (by rw [ht]; positivity) ?_
    rw [ht]
    push_cast
    linarith

theorem calculate_resume_quality_score_bounds (r : String) (he hp : Bool) {b : ℤ}
    (hb0 : 0 ≤ b) :
    0 ≤ calculate_resume_quality_score r he hp b ∧
      calculate_resume_quality_score r he hp b ≤ 100 := by
  unfold calculate_resume_quality_score
  dsimp only
  split_ifs <;> omega

theorem skill_boost_nonneg (m n : ℕ) :
    0 ≤ PyNum.trunc (PyNum.ofInt (m : ℤ) / PyNum.ofInt (n : ℤ) * PyNum.ofInt 30) := by
  have hd : (PyNum.ofInt (m : ℤ) / PyNum.ofInt (n : ℤ) * PyNum.ofInt 30).DenPos :=
    ((PyNum.DenPos.ofInt _).div (PyNum.DenPos.ofInt _)).mul (PyNum.DenPos.ofInt 30)
  refine PyNum.trunc_nonneg hd ?_
  rw [PyNum.toRat_mul ((PyNum.DenPos.ofInt _).div (PyNum.DenPos.ofInt _))
    (PyNum.DenPos.ofInt 30),
    PyNum.toRat_div (PyNum.DenPos.ofInt _) (PyNum.DenPos.ofInt _),
    PyNum.toRat_ofNat, PyNum.toRat_ofNat, PyNum.toRat_ofInt]
  positivity

theorem calculate_skills_match_score_bounds (sk : List String) (job : String) {b : ℤ}
    (hb0 : 0 ≤ b) (hb1 : b ≤ 100) :
    0 ≤ calculate_skills_match_score sk job b ∧
      calculate_skills_match_score sk job b ≤ 100 := by
  unfold calculate_skills_match_score
  dsimp only
  split_ifs
  · omega
  · have := skill_boost_nonneg (matched_skills sk job).length sk.length
    omega

theorem calculate_experience_match_score_bounds (cy : ℕ) (edu : String) (ry : ℕ)
    (b : ℤ) :
    20 ≤ calculate_experience_match_score cy edu ry b ∧
      calculate_experience_match_score cy edu ry b ≤ 100 := by
  unfold calculate_experience_match_score
  dsimp only
  split_ifs <;> omega

theorem hfWeightedBlend_denpos (b q s e : ℤ) : (hfWeightedBlend b q s e).DenPos := by
  unfold hfWeightedBlend
  exact ((((PyNum.DenPos.frac (by norm_num)).mul (PyNum.DenPos.ofInt _)).add
    ((PyNum.DenPos.frac (by norm_num)).mul (PyNum.DenPos.ofInt _))).add
    ((PyNum.DenPos.frac (by norm_num)).mul (PyNum.DenPos.ofInt _))).add
    ((PyNum.DenPos.frac (by norm_num)).mul (PyNum.DenPos.ofInt _))

theorem hfWeightedBlend_toRat (b q s e : ℤ) :
    (hfWeightedBlend b q s e).toRat =
      (2 / 5 : ℚ) * b + (1 / 4 : ℚ) * q + (1 / 5 : ℚ) * s + (3 / 20 : ℚ) * e := by
  unfold hfWeightedBlend
  have d1 : (PyNum.frac 2 5 * PyNum.ofInt b).DenPos :=
    (PyNum.DenPos.frac (by norm_num)).mul (PyNum.DenPos.ofInt _)
  have d2 : (PyNum.frac 1 4 * PyNum.ofInt q).DenPos :=
    (PyNum.DenPos.frac (by norm_num)).mul (PyNum.DenPos.ofInt _)
  have d3 : (PyNum.frac 1 5 * PyNum.ofInt s).DenPos :=
    (PyNum.DenPos.frac (by norm_num)).mul (PyNum.DenPos.ofInt _)
  have d4 : (PyNum.frac 3 20 * PyNum.ofInt e).DenPos :=
    (PyNum.DenPos.frac (by norm_num)).mul (PyNum.DenPos.ofInt _)
  rw [PyNum.toRat_add ((d1.add d2).add d3) d4, PyNum.toRat_add (d1.add d2) d3,
    PyNum.toRat_add d1 d2,
    PyNum.toRat_mul (PyNum.DenPos.frac (by norm_num)) (PyNum.DenPos.ofInt _),
    PyNum.toRat_mul (PyNum.DenPos.frac (by norm_num)) (PyNum.DenPos.ofInt _),
    PyNum.toRat_mul (PyNum.DenPos.frac (by norm_num)) (PyNum.DenPos.ofInt _),
    PyNum.toRat_mul (PyNum.DenPos.frac (by norm_num)) (PyNum.DenPos.ofInt _),
    PyNum.toRat_frac, PyNum.toRat_frac, PyNum.toRat_frac, PyNum.toRat_frac,
    PyNum.toRat_ofInt, PyNum.toRat_ofInt, PyNum.toRat_ofInt, PyNum.toRat_ofInt]
  norm_num

theorem hf_overall_bounds (resume job : String) (f : RegexFeatures) {hf sim : PyNum}
    (hfd : hf.DenPos) (hf0 : 0 ≤ hf.toRat) (hf1 : hf.toRat ≤ 1)
    (hsd : sim.DenPos) (hs0 : 0 ≤ sim.toRat) (hs1 : sim.toRat ≤ 1) :
    0 ≤ (calculate_enhanced_resume_score_hf resume job f hf sim).overallScore ∧
      (calculate_enhanced_resume_score_hf resume job f hf sim).overallScore ≤ 100 := by
  obtain ⟨hb0, hb1⟩ := trunc_mul100_bounds hfd hf0 hf1
  obtain ⟨hp0, hp1⟩ := trunc_mul100_bounds hsd hs0 hs1
  obtain ⟨hq0, hq1⟩ := calculate_resume_quality_score_bounds resume f.hasEmail f.hasPhone hb0
  obtain ⟨hsk0, hsk1⟩ := calculate_skills_match_score_bounds f.skills job hp0 hp1
  obtain ⟨he0, he1⟩ := calculate_experience_match_score_bounds f.candidateYears
    f.educationLevel f.hfRequiredYears (PyNum.trunc (hf * PyNum.ofInt 100))
  show 0 ≤ PyNum.trunc (hfWeightedBlend _ _ _ _) ∧ PyNum.trunc (hfWeightedBlend _ _ _ _) ≤ 100
  set b := PyNum.trunc (hf * PyNum.ofInt 100)
  set p := PyNum.trunc (sim * PyNum.ofInt 100)
  set q := calculate_resume_quality_score resume f.hasEmail f.hasPhone b
  set s := calculate_skills_match_score f.skills job p
  set e := calculate_experience_match_score f.candidateYears f.educationLevel
    f.hfRequiredYears b
  have hrat := hfWeightedBlend_toRat b q s e
  have hd := hfWeightedBlend_denpos b q s e
  have h0 : 0 ≤ (hfWeightedBlend b q s e).toRat := by
    rw [hrat]
    have : (0 : ℚ) ≤ (b : ℚ) := by exact_mod_cast hb0
    have : (0 : ℚ) ≤ (q : ℚ) := by exact_mod_cast hq0
    have : (0 : ℚ) ≤ (s : ℚ) := by exact_mod_cast hsk0
    have : (0 : ℚ) ≤ (e : ℚ) := by exact_mod_cast le_trans (by norm_num) he0
    linarith
  constructor
  · exact PyNum.trunc_nonneg hd h0
  · refine PyNum.trunc_le hd h0 ?_
    rw [hrat]
    have c1 : (b : ℚ) ≤ 100 := by exact_mod_cast hb1
    have c2 : (q : ℚ) ≤ 100 := by exact_mod_cast hq1
    have c3 : (s : ℚ) ≤ 100 := by exact_mod_cast hsk1
    have c4 : (e : ℚ) ≤ 100 := by exact_mod_cast he1
    push_cast
    linarith

/-- C1: for every pair of input texts (including empty ones), every feature
assignment the regex/config passes could produce, every cosine similarity in
`[-1, 1]` from the embedding model, and both the successful HuggingFace path
and the exception-fallback path, the `overallScore` returned by
`calculate_resume_score` is an integer in `[0, 100]`. -/
theorem calculate_resume_score_overall_in_range (resume job : String)
    (f : RegexFeatures) (cos : PyNum) (hcd : cos.DenPos)
    (hlo : -1 ≤ cos.toRat) (hhi : cos.toRat ≤ 1) (hfOk : Bool) :
    0 ≤ (calculate_resume_score resume job f cos hfOk).overallScore ∧
      (calculate_resume_score resume job f cos hfOk).overallScore ≤ 100 := by
  unfold calculate_resume_score
  split_ifs with hempty hok
  · exact ⟨by norm_num [defaultScoreRecord], by norm_num [defaultScoreRecord]⟩
  · have hsd := similarity_denpos hcd
    have hst := similarity_toRat hcd
    have hs0 : 0 ≤ ((cos + PyNum.ofInt 1) / PyNum.ofInt 2).toRat := by
      rw [hst]; linarith
    have hs1 : ((cos + PyNum.ofInt 1) / PyNum.ofInt 2).toRat ≤ 1 := by
      rw [hst]; linarith
    exact hf_overall_bounds resume job f hsd hs0 hs1 hsd hs0 hs1
  · unfold calculate_enhanced_resume_score
    constructor
    · show (0 : ℤ) ≤ min 95 (max 20 _)
      omega
    · show min 95 (max 20 _) ≤ (100 : ℤ)
      omega

/-- C1 witness: the bound instantiated at concrete inputs on the
HuggingFace path. -/
theorem calculate_resume_score_overall_in_range_witness :
    0 ≤ (calculate_resume_score "a" "b" ⟨false, false, 0, "Not specified", 0, 3, [], []⟩
        (PyNum.ofInt 0) true).overallScore ∧
      (calculate_resume_score "a" "b" ⟨false, false, 0, "Not specified", 0, 3, [], []⟩
        (PyNum.ofInt 0) true).overallScore ≤ 100 :=
  calculate_resume_score_overall_in_range "a" "b" _ (PyNum.ofInt 0)
    (PyNum.DenPos.ofInt 0) (by rw [PyNum.toRat_ofInt]; norm_num)
    (by rw [PyNum.toRat_ofInt]; norm_num) true


/-! ## The recommended action (claim C2) -/

/-- C2 counterexample: with an empty résumé text, `calculate_resume_score`
returns its early default record, whose `recommendedAction` is `"review"` —
not one of the four claimed values. -/
theorem recommended_action_empty_counterexample :
    (calculate_resume_score "" "job description"
        ⟨false, false, 0, "Not specified", 0, 3, [], []⟩
        (PyNum.ofInt 0) true).recommendedAction = "review" ∧
      ¬ ("review" ∈ (["hire", "interview", "maybe", "reject"] : List String)) := by
  exact ⟨by decide, by decide⟩

/-- C2 (amended): whenever both input texts are non-empty, the
`recommendedAction` of `calculate_resume_score` is one of exactly
`"hire"`, `"interview"`, `"maybe"`, `"reject"` — on the HuggingFace path
via `_score_to_action` and on the fallback path via `_get_recommendation`;
the early default for an empty input returns `"review"` instead. -/
theorem recommended_action_in_four (resume job : String) (f : RegexFeatures)
    (cos : PyNum) (hfOk : Bool) (h1 : resume ≠ "") (h2 : job ≠ "") :
    (calculate_resume_score resume job f cos hfOk).recommendedAction ∈
      (["hire", "interview", "maybe", "reject"] : List String) := by
  unfold calculate_resume_score
  rw [if_neg (by tauto)]
  split_ifs
  · show score_to_action _ ∈ _
    unfold score_to_action
    split_ifs <;> simp
  · unfold calculate_enhanced_resume_score
    show get_recommendation _ ∈ _
    unfold get_recommendation
    split_ifs <;> simp

/-- C2 witness: the amended theorem at concrete non-empty inputs. -/
theorem recommended_action_in_four_witness :
    (calculate_resume_score "python developer" "python job"
        ⟨false, false, 0, "Not specified", 0, 3, [], []⟩
        (PyNum.ofInt 0) true).recommendedAction ∈
      (["hire", "interview", "maybe", "reject"] : List String) :=
  recommended_action_in_four "python developer" "python job" _ (PyNum.ofInt 0) true
    (by decide) (by decide)


/-! ## High-end compression of the overall score (claim C4) -/

theorem fb_skills_base_denpos (skills jobSkills : List String) :
    (fb_skills_base skills jobSkills).DenPos := by
  unfold fb_skills_base
  exact (((PyNum.DenPos.ofInt _).div (PyNum.DenPos.ofInt _)).mul
    (PyNum.DenPos.ofInt 75)).add
    (((PyNum.DenPos.frac (by norm_num)).pymin
      ((PyNum.DenPos.ofInt _).div (PyNum.DenPos.ofInt 15))).mul (PyNum.DenPos.ofInt 25))

theorem fb_skills_compress_denpos {base : PyNum} (hb : base.DenPos) :
    (fb_skills_compress base).DenPos := by
  unfold fb_skills_compress
  by_cases h1 : PyNum.ble (PyNum.ofInt 80) base = true
  · rw [if_pos h1]
    exact (PyNum.DenPos.ofInt 80).add
      ((hb.sub (PyNum.DenPos.ofInt 80)).mul (PyNum.DenPos.frac (by norm_num)))
  · rw [if_neg h1]
    by_cases h2 : PyNum.ble (PyNum.ofInt 60) base = true
    · rw [if_pos h2]
      exact (PyNum.DenPos.ofInt 60).add
        ((hb.sub (PyNum.DenPos.ofInt 60)).mul (PyNum.DenPos.frac (by norm_num)))
    · rw [if_neg h2]
      exact hb.mul (PyNum.DenPos.frac (by norm_num))

theorem fb_skills_match_denpos (skills jobSkills : List String) :
    (fb_skills_match skills jobSkills).DenPos := by
  unfold fb_skills_match
  by_cases hne : ((jobSkills.map pyLower).toFinset : Finset String).Nonempty
  · rw [if_pos hne]
    exact (PyNum.DenPos.ofInt 95).pymin
      (fb_skills_compress_denpos (fb_skills_base_denpos skills jobSkills))
  · rw [if_neg hne]
    exact (PyNum.DenPos.ofInt 70).pymin (PyNum.DenPos.ofInt _)

theorem fb_experience_banded_denpos (e r : ℕ) : (fb_experience_banded e r).DenPos := by
  unfold fb_experience_banded
  by_cases h1 : e = 0
  · rw [if_pos h1]
    exact PyNum.DenPos.ofInt 20
  · rw [if_neg h1]
    by_cases h2 : PyNum.blt (PyNum.ofInt (e : ℤ)) (PyNum.ofInt (r : ℤ) * PyNum.frac 1 2) = true
    · rw [if_pos h2]
      exact (PyNum.DenPos.ofInt 25).add
        (((PyNum.DenPos.ofInt _).div (PyNum.DenPos.ofInt _)).mul (PyNum.DenPos.ofInt 20))
    · rw [if_neg h2]
      by_cases h3 : PyNum.blt (PyNum.ofInt (e : ℤ)) (PyNum.ofInt (r : ℤ) * PyNum.frac 4 5) = true
      · rw [if_pos h3]
        exact (PyNum.DenPos.ofInt 45).add
          ((((PyNum.DenPos.ofInt _).sub ((PyNum.DenPos.ofInt _).mul
            (PyNum.DenPos.frac (by norm_num)))).div ((PyNum.DenPos.ofInt _).mul
            (PyNum.DenPos.frac (by norm_num)))).mul (PyNum.DenPos.ofInt 15))
      · rw [if_neg h3]
        by_cases h4 : PyNum.blt (PyNum.ofInt (e : ℤ)) (PyNum.ofInt (r : ℤ)) = true
        · rw [if_pos h4]
          exact (PyNum.DenPos.ofInt 60).add
            ((((PyNum.DenPos.ofInt _).sub ((PyNum.DenPos.ofInt _).mul
              (PyNum.DenPos.frac (by norm_num)))).div ((PyNum.DenPos.ofInt _).mul
              (PyNum.DenPos.frac (by norm_num)))).mul (PyNum.DenPos.ofInt 10))
        · rw [if_neg h4]
          by_cases h5 : e = r
          · rw [if_pos h5]
            exact PyNum.DenPos.ofInt 75
          · rw [if_neg h5]
            by_cases h6 : PyNum.ble (PyNum.ofInt (e : ℤ))
                (PyNum.ofInt (r : ℤ) + PyNum.ofInt 2) = true
            · rw [if_pos h6]
              exact (PyNum.DenPos.ofInt 75).add
                ((((PyNum.DenPos.ofInt _).sub (PyNum.DenPos.ofInt _)).div
                  (PyNum.DenPos.ofInt 2)).mul (PyNum.DenPos.ofInt 10))
            · rw [if_neg h6]
              exact (PyNum.DenPos.ofInt 85).add ((PyNum.DenPos.ofInt 10).pymin
                (((PyNum.DenPos.ofInt _).sub ((PyNum.DenPos.ofInt _).add
                  (PyNum.DenPos.ofInt 2))).mul (PyNum.DenPos.ofInt 2)))

theorem fb_experience_match_denpos (e r : ℕ) : (fb_experience_match e r).DenPos :=
  (PyNum.DenPos.ofInt 95).pymin
    ((PyNum.DenPos.ofInt 15).pymax (fb_experience_banded_denpos e r))

theorem fbWeightedBlend_denpos {x y : PyNum} (hx : x.DenPos) (hy : y.DenPos) (q : ℤ) :
    (fbWeightedBlend x y q).DenPos :=
  ((hx.mul (PyNum.DenPos.frac (by norm_num))).add
    (hy.mul (PyNum.DenPos.frac (by norm_num)))).add
    ((PyNum.DenPos.ofInt _).mul (PyNum.DenPos.frac (by norm_num)))

/-- C4 (amended): the compressive recalibration above 85 exists only in the
pure-heuristic fallback path — there, whenever the weighted blend exceeds
85, the returned `overallScore` is strictly below the blend and at most 95;
the embedding-based path applies no compression at all: its `overallScore`
is exactly the truncated weighted blend of its component scores. -/
theorem overall_score_compression (resume job : String) (f : RegexFeatures) :
    (85 < (fbWeightedBlend (fb_skills_match f.skills f.jobSkills)
        (fb_experience_match f.candidateYears f.fbRequiredYears)
        (calculate_resume_quality resume f.skills f.educationLevel)).toRat →
      (((calculate_enhanced_resume_score resume job f).overallScore : ℚ) <
          (fbWeightedBlend (fb_skills_match f.skills f.jobSkills)
            (fb_experience_match f.candidateYears f.fbRequiredYears)
            (calculate_resume_quality resume f.skills f.educationLevel)).toRat ∧
        (calculate_enhanced_resume_score resume job f).overallScore ≤ 95)) ∧
    (∀ hf sim : PyNum,
      (calculate_enhanced_resume_score_hf resume job f hf sim).overallScore =
        PyNum.trunc (hfWeightedBlend (PyNum.trunc (hf * PyNum.ofInt 100))
          (calculate_enhanced_resume_score_hf resume job f hf sim).resumeScore
          (calculate_enhanced_resume_score_hf resume job f hf sim).skillsMatch
          (calculate_enhanced_resume_score_hf resume job f hf sim).experienceMatch)) := by
  constructor
  · intro hw
    have hov : (calculate_enhanced_resume_score resume job f).overallScore =
        min 95 (max 20 (fb_calibrate (fbWeightedBlend
          (fb_skills_match f.skills f.jobSkills)
          (fb_experience_match f.candidateYears f.fbRequiredYears)
          (calculate_resume_quality resume f.skills f.educationLevel)))) := rfl
    rw [hov]
    set w := fbWeightedBlend (fb_skills_match f.skills f.jobSkills)
      (fb_experience_match f.candidateYears f.fbRequiredYears)
      (calculate_resume_quality resume f.skills f.educationLevel) with hwdef
    have dw : w.DenPos := fbWeightedBlend_denpos
      (fb_skills_match_denpos f.skills f.jobSkills)
      (fb_experience_match_denpos f.candidateYears f.fbRequiredYears)
      (calculate_resume_quality resume f.skills f.educationLevel)
    have hcond : PyNum.blt (PyNum.ofInt 85) w = true := by
      rw [PyNum.blt_iff (PyNum.DenPos.ofInt 85) dw, PyNum.toRat_ofInt]
      exact_mod_cast hw
    have hcal : fb_calibrate w =
        PyNum.trunc (PyNum.ofInt 85 + (w - PyNum.ofInt 85) * PyNum.frac 2 5) := by
      unfold fb_calibrate
      rw [if_pos hcond]
    rw [hcal]
    have dsub : (w - PyNum.ofInt 85).DenPos := dw.sub (PyNum.DenPos.ofInt 85)
    have dmul : ((w - PyNum.ofInt 85) * PyNum.frac 2 5).DenPos :=
      dsub.mul (PyNum.DenPos.frac (by norm_num))
    have dcal : (PyNum.ofInt 85 + (w - PyNum.ofInt 85) * PyNum.frac 2 5).DenPos :=
      (PyNum.DenPos.ofInt 85).add dmul
    have hcalt : (PyNum.ofInt 85 + (w - PyNum.ofInt 85) * PyNum.frac 2 5).toRat =
        85 + (w.toRat - 85) * (2 / 5 : ℚ) := by
      rw [PyNum.toRat_add (PyNum.DenPos.ofInt 85) dmul, PyNum.toRat_mul dsub
        (PyNum.DenPos.frac (by norm_num)), PyNum.toRat_sub dw (PyNum.DenPos.ofInt 85),
        PyNum.toRat_ofInt, PyNum.toRat_frac]
      norm_num
    have hc0 : (0 : ℚ) ≤ (PyNum.ofInt 85 + (w - PyNum.ofInt 85) * PyNum.frac 2 5).toRat := by
      rw [hcalt]
      linarith
    have hle : ((PyNum.trunc (PyNum.ofInt 85 + (w - PyNum.ofInt 85) * PyNum.frac 2 5) : ℤ) : ℚ) ≤
        (PyNum.ofInt 85 + (w - PyNum.ofInt 85) * PyNum.frac 2 5).toRat :=
      PyNum.trunc_toRat_le dcal hc0
    constructor
    · set X := PyNum.trunc (PyNum.ofInt 85 + (w - PyNum.ofInt 85) * PyNum.frac 2 5) with hX
      have h1 : (min 95 (max 20 X) : ℤ) ≤ max 20 X := min_le_right _ _
      have h20 : ((20 : ℤ) : ℚ) ≤ 85 := by norm_num
      have hmax : ((max 20 X : ℤ) : ℚ) ≤
          (PyNum.ofInt 85 + (w - PyNum.ofInt 85) * PyNum.frac 2 5).toRat := by
        rcases max_cases (20 : ℤ) X with ⟨hm, hc⟩ | ⟨hm, hc⟩
        · rw [hm]
          rw [hcalt]
          push_cast
          linarith
        · rw [hm]
          exact hle
      have h3 : (PyNum.ofInt 85 + (w - PyNum.ofInt 85) * PyNum.frac 2 5).toRat < w.toRat := by
        rw [hcalt]
        linarith
      calc ((min 95 (max 20 X) : ℤ) : ℚ) ≤ ((max 20 X : ℤ) : ℚ) := by exact_mod_cast h1
        _ ≤ _ := hmax
        _ < w.toRat := h3
    · exact min_le_left _ _
  · intro hf sim
    rfl

/-- C4 counterexample: on the embedding path, a strongly matching résumé
drives every component score to 100, the weighted blend to 100 (above 85),
and the returned `overallScore` to 100 — not compressed below the blend and
not at most 95. -/
theorem hf_no_compression_counterexample :
    PyNum.blt (PyNum.ofInt 85) (hfWeightedBlend 100 100 100 100) = true ∧
    PyNum.trunc (hfWeightedBlend 100 100 100 100) = 100 ∧
    (calculate_resume_score "python" "python job"
        ⟨true, true, 5, "Masters", 1, 3, ["python"], []⟩ (PyNum.ofInt 1) true) =
      ⟨100, 100, 100, 100, 99, "hire"⟩ ∧
    ¬ ((calculate_resume_score "python" "python job"
        ⟨true, true, 5, "Masters", 1, 3, ["python"], []⟩
        (PyNum.ofInt 1) true).overallScore ≤ 95) ∧
    ¬ (PyNum.blt (PyNum.ofInt ((calculate_resume_score "python" "python job"
        ⟨true, true, 5, "Masters", 1, 3, ["python"], []⟩
        (PyNum.ofInt 1) true).overallScore)) (hfWeightedBlend 100 100 100 100) = true) := by
  exact ⟨by decide, by decide, by decide, by decide, by decide⟩

/-- Concrete résumé text used by the C4 witness (rich in section and
achievement keywords so the fallback quality score is high). -/
def c4resume : String :=
  "experience skills education projects certifications achieved improved increased reduced led managed developed implemented email phone linkedin github"

/-- Concrete features used by the C4 witness (fifteen extracted skills
covering the single job skill, ten years of experience against three). -/
def c4features : RegexFeatures :=
  ⟨false, false, 10, "Phd", 0, 3,
    ["python", "aa", "bb", "cc", "dd", "ee", "ff", "gg", "hh", "ii", "jj", "kk",
      "ll", "mm", "nn"], ["python"]⟩

/-- C4 witness: the fallback-path compression at a concrete input whose
weighted blend (90.2) exceeds 85; the returned overall score (87) is
strictly below the blend and at most 95. -/
theorem overall_score_compression_witness :
    ((calculate_enhanced_resume_score c4resume "job" c4features).overallScore : ℚ) <
      (fbWeightedBlend (fb_skills_match c4features.skills c4features.jobSkills)
        (fb_experience_match c4features.candidateYears c4features.fbRequiredYears)
        (calculate_resume_quality c4resume c4features.skills
          c4features.educationLevel)).toRat ∧
    (calculate_enhanced_resume_score c4resume "job" c4features).overallScore ≤ 95 := by
  have dw := fbWeightedBlend_denpos
    (fb_skills_match_denpos c4features.skills c4features.jobSkills)
    (fb_experience_match_denpos c4features.candidateYears c4features.fbRequiredYears)
    (calculate_resume_quality c4resume c4features.skills c4features.educationLevel)
  have h85 : (85 : ℚ) < (fbWeightedBlend (fb_skills_match c4features.skills c4features.jobSkills)
      (fb_experience_match c4features.candidateYears c4features.fbRequiredYears)
      (calculate_resume_quality c4resume c4features.skills
        c4features.educationLevel)).toRat := by
    have hb := (PyNum.blt_iff (PyNum.DenPos.ofInt 85) dw).mp (by decide)
    rw [PyNum.toRat_ofInt] at hb
    exact_mod_cast hb
  exact (overall_score_compression c4resume "job" c4features).1 h85


/-! ## Monotonicity of the skills-match component (claim C5) -/

/-- C5 counterexample: résumé A's matched job-skill set strictly contains
résumé B's, the semantic base scores are equal (50), yet A's `skillsMatch`
(70) is strictly below B's (80), because the boost divides by the total
number of extracted skills and A carries an extra unmatched skill. -/
theorem skills_match_superset_counterexample :
    (matched_skills ["python"] "python java developer").toFinset ⊂
      (matched_skills ["python", "java", "zzzqx"] "python java developer").toFinset ∧
    calculate_skills_match_score ["python", "java", "zzzqx"] "python java developer" 50 = 70 ∧
    calculate_skills_match_score ["python"] "python java developer" 50 = 80 ∧
    calculate_skills_match_score ["python", "java", "zzzqx"] "python java developer" 50 <
      calculate_skills_match_score ["python"] "python java developer" 50 := by
  exact ⟨by decide, by decide, by decide, by decide⟩

theorem skill_boost_mono {mB mA : ℕ} (n : ℕ) (h : mB ≤ mA) (hn : 0 < n) :
    PyNum.trunc (PyNum.ofInt (mB : ℤ) / PyNum.ofInt (n : ℤ) * PyNum.ofInt 30) ≤
      PyNum.trunc (PyNum.ofInt (mA : ℤ) / PyNum.ofInt (n : ℤ) * PyNum.ofInt 30) := by
  have dB : (PyNum.ofInt (mB : ℤ) / PyNum.ofInt (n : ℤ) * PyNum.ofInt 30).DenPos :=
    ((PyNum.DenPos.ofInt _).div (PyNum.DenPos.ofInt _)).mul (PyNum.DenPos.ofInt 30)
  have dA : (PyNum.ofInt (mA : ℤ) / PyNum.ofInt (n : ℤ) * PyNum.ofInt 30).DenPos :=
    ((PyNum.DenPos.ofInt _).div (PyNum.DenPos.ofInt _)).mul (PyNum.DenPos.ofInt 30)
  have htB : (PyNum.ofInt (mB : ℤ) / PyNum.ofInt (n : ℤ) * PyNum.ofInt 30).toRat =
      (mB : ℚ) / (n : ℚ) * 30 := by
    rw [PyNum.toRat_mul ((PyNum.DenPos.ofInt _).div (PyNum.DenPos.ofInt _))
      (PyNum.DenPos.ofInt 30), PyNum.toRat_div (PyNum.DenPos.ofInt _)
      (PyNum.DenPos.ofInt _), PyNum.toRat_ofNat, PyNum.toRat_ofNat, PyNum.toRat_ofInt]
    norm_num
  have htA : (PyNum.ofInt (mA : ℤ) / PyNum.ofInt (n : ℤ) * PyNum.ofInt 30).toRat =
      (mA : ℚ) / (n : ℚ) * 30 := by
    rw [PyNum.toRat_mul ((PyNum.DenPos.ofInt _).div (PyNum.DenPos.ofInt _))
      (PyNum.DenPos.ofInt 30), PyNum.toRat_div (PyNum.DenPos.ofInt _)
      (PyNum.DenPos.ofInt _), PyNum.toRat_ofNat, PyNum.toRat_ofNat, PyNum.toRat_ofInt]
    norm_num
  refine PyNum.trunc_mono dB dA ?_ ?_
  · rw [htB]
    positivity
  · rw [htB, htA]
    have hm' : (mB : ℚ) ≤ (mA : ℚ) := by exact_mod_cast h
    gcongr

/-- The rational value of the fallback skills base score. -/
theorem fb_skills_base_toRat (skills jobSkills : List String) :
    (fb_skills_base skills jobSkills).toRat =
      ((((skills.map pyLower).toFinset ∩ (jobSkills.map pyLower).toFinset).card : ℚ) /
          (((jobSkills.map pyLower).toFinset : Finset String).card : ℚ)) * 75 +
        min (3 / 5 : ℚ) ((((skills.map pyLower).toFinset : Finset String).card : ℚ) / 15) * 25 := by
  unfold fb_skills_base
  have d1 : (PyNum.ofInt ((((skills.map pyLower).toFinset ∩
      (jobSkills.map pyLower).toFinset).card : ℕ) : ℤ) /
      PyNum.ofInt ((((jobSkills.map pyLower).toFinset : Finset String).card : ℕ) : ℤ)).DenPos :=
    (PyNum.DenPos.ofInt _).div (PyNum.DenPos.ofInt _)
  have d2 : ((PyNum.frac 3 5).pymin (PyNum.ofInt ((((skills.map pyLower).toFinset :
      Finset String).card : ℕ) : ℤ) / PyNum.ofInt 15)).DenPos :=
    (PyNum.DenPos.frac (by norm_num)).pymin ((PyNum.DenPos.ofInt _).div (PyNum.DenPos.ofInt 15))
  rw [PyNum.toRat_add (d1.mul (PyNum.DenPos.ofInt 75)) (d2.mul (PyNum.DenPos.ofInt 25)),
    PyNum.toRat_mul d1 (PyNum.DenPos.ofInt 75), PyNum.toRat_mul d2 (PyNum.DenPos.ofInt 25),
    PyNum.toRat_div (PyNum.DenPos.ofInt _) (PyNum.DenPos.ofInt _),
    PyNum.toRat_pymin (PyNum.DenPos.frac (by norm_num))
      ((PyNum.DenPos.ofInt _).div (PyNum.DenPos.ofInt 15)),
    PyNum.toRat_div (PyNum.DenPos.ofInt _) (PyNum.DenPos.ofInt 15),
    PyNum.toRat_ofNat, PyNum.toRat_ofNat, PyNum.toRat_ofNat, PyNum.toRat_frac,
    PyNum.toRat_ofInt, PyNum.toRat_ofInt, PyNum.toRat_ofInt]
  norm_num

/-- Proof-side rational version of the diminishing-returns pass. -/
def fbCompressQ (b : ℚ) : ℚ :=
  if 80 ≤ b then 80 + (b - 80) * (3 / 10)
  else if 60 ≤ b then 60 + (b - 60) * (7 / 10)
  else b * (9 / 10)

theorem fb_skills_compress_toRat {b : PyNum} (hb : b.DenPos) :
    (fb_skills_compress b).toRat = fbCompressQ b.toRat := by
  unfold fb_skills_compress fbCompressQ
  by_cases h1 : PyNum.ble (PyNum.ofInt 80) b = true
  · have h1' : (80 : ℚ) ≤ b.toRat := by
      have := (PyNum.ble_iff (PyNum.DenPos.ofInt 80) hb).mp h1
      rwa [PyNum.toRat_ofInt] at this
    rw [if_pos h1,
      PyNum.toRat_add (PyNum.DenPos.ofInt 80)
        ((hb.sub (PyNum.DenPos.ofInt 80)).mul (PyNum.DenPos.frac (by norm_num))),
      PyNum.toRat_mul (hb.sub (PyNum.DenPos.ofInt 80)) (PyNum.DenPos.frac (by norm_num)),
      PyNum.toRat_sub hb (PyNum.DenPos.ofInt 80), PyNum.toRat_ofInt, PyNum.toRat_frac,
      if_pos (by exact_mod_cast h1')]
    norm_num
  · have h1' : ¬ ((80 : ℚ) ≤ b.toRat) := by
      intro hc
      exact h1 ((PyNum.ble_iff (PyNum.DenPos.ofInt 80) hb).mpr
        (by rw [PyNum.toRat_ofInt]; exact_mod_cast hc))
    by_cases h2 : PyNum.ble (PyNum.ofInt 60) b = true
    · have h2' : (60 : ℚ) ≤ b.toRat := by
        have := (PyNum.ble_iff (PyNum.DenPos.ofInt 60) hb).mp h2
        rwa [PyNum.toRat_ofInt] at this
      rw [if_neg h1, if_pos h2,
        PyNum.toRat_add (PyNum.DenPos.ofInt 60)
          ((hb.sub (PyNum.DenPos.ofInt 60)).mul (PyNum.DenPos.frac (by norm_num))),
        PyNum.toRat_mul (hb.sub (PyNum.DenPos.ofInt 60)) (PyNum.DenPos.frac (by norm_num)),
        PyNum.toRat_sub hb (PyNum.DenPos.ofInt 60), PyNum.toRat_ofInt, PyNum.toRat_frac,
        if_neg (by exact_mod_cast h1'), if_pos (by exact_mod_cast h2')]
      norm_num
    · have h2' : ¬ ((60 : ℚ) ≤ b.toRat) := by
        intro hc
        exact h2 ((PyNum.ble_iff (PyNum.DenPos.ofInt 60) hb).mpr
          (by rw [PyNum.toRat_ofInt]; exact_mod_cast hc))
      rw [if_neg h1, if_neg h2,
        PyNum.toRat_mul hb (PyNum.DenPos.frac (by norm_num)), PyNum.toRat_frac,
        if_neg (by exact_mod_cast h1'), if_neg (by exact_mod_cast h2')]
      norm_num

theorem fbCompressQ_mono {a b : ℚ} (h : a ≤ b) : fbCompressQ a ≤ fbCompressQ b := by
  unfold fbCompressQ
  split_ifs <;> linarith

theorem fbCompressQ_nonneg {b : ℚ} (hb : 0 ≤ b) : 0 ≤ fbCompressQ b := by
  unfold fbCompressQ
  split_ifs <;> linarith

/-- C5 (amended): with equal semantic base score, equal experience features
and equally many extracted skills, a résumé whose matched job-skill set
contains the other's scores at least as high on the `skillsMatch` component
of both scoring paths.  (As stated — without the equal-skill-count
hypothesis — the claim is false: see the counterexample.) -/
theorem skills_match_monotone (job : String) (base : ℤ) (sA sB jobSkills : List String)
    (hB : sB.Nodup) (hlen : sA.length = sB.length)
    (hsub : matched_skills sB job ⊆ matched_skills sA job)
    (hcard : ((sA.map pyLower).toFinset : Finset String).card =
      ((sB.map pyLower).toFinset : Finset String).card)
    (hints : (((sB.map pyLower).toFinset : Finset String) ∩
        ((jobSkills.map pyLower).toFinset : Finset String)) ⊆
      (((sA.map pyLower).toFinset : Finset String) ∩
        ((jobSkills.map pyLower).toFinset : Finset String))) :
    calculate_skills_match_score sB job base ≤ calculate_skills_match_score sA job base ∧
    PyNum.trunc (fb_skills_match sB jobSkills) ≤
      PyNum.trunc (fb_skills_match sA jobSkills) := by
  constructor
  · unfold calculate_skills_match_score
    by_cases hAe : sA.isEmpty = true
    · have hBe : sB.isEmpty = true := by
        cases sB with
        | nil => rfl
        | cons x xs =>
          cases sA with
          | nil => simp at hlen
          | cons y ys => simp at hAe
      rw [if_pos hAe, if_pos hBe]
    · have hBe : ¬ (sB.isEmpty = true) := by
        cases sB with
        | nil =>
          cases sA with
          | nil => exact absurd rfl hAe
          | cons y ys => simp at hlen
        | cons x xs => simp
      rw [if_neg hAe, if_neg hBe]
      dsimp only
      have hn : 0 < sB.length := by
        cases sB with
        | nil => exact absurd rfl hBe
        | cons x xs => simp
      have hmm : (matched_skills sB job).length ≤ (matched_skills sA job).length :=
        (List.subperm_of_subset (hB.filter _) hsub).length_le
      have hboost := skill_boost_mono sB.length hmm hn
      rw [hlen]
      have h1 := hboost
      omega
  · by_cases hne : ((jobSkills.map pyLower).toFinset : Finset String).Nonempty
    · unfold fb_skills_match
      rw [if_pos hne, if_pos hne]
      have dbB := fb_skills_base_denpos sB jobSkills
      have dbA := fb_skills_base_denpos sA jobSkills
      have dcB := fb_skills_compress_denpos dbB
      have dcA := fb_skills_compress_denpos dbA
      have dpB := (PyNum.DenPos.ofInt 95).pymin dcB
      have dpA := (PyNum.DenPos.ofInt 95).pymin dcA
      have hb0 : (0 : ℚ) ≤ (fb_skills_base sB jobSkills).toRat := by
        rw [fb_skills_base_toRat]
        have h1 : (0 : ℚ) ≤ ((((sB.map pyLower).toFinset ∩
            (jobSkills.map pyLower).toFinset).card : ℚ) /
            (((jobSkills.map pyLower).toFinset : Finset String).card : ℚ)) * 75 := by
          positivity
        have h2 : (0 : ℚ) ≤ min (3 / 5 : ℚ)
            ((((sB.map pyLower).toFinset : Finset String).card : ℚ) / 15) * 25 := by
          have : (0 : ℚ) ≤ min (3 / 5 : ℚ)
              ((((sB.map pyLower).toFinset : Finset String).card : ℚ) / 15) :=
            le_min (by norm_num) (by positivity)
          linarith
        linarith
      have hbase : (fb_skills_base sB jobSkills).toRat ≤
          (fb_skills_base sA jobSkills).toRat := by
        rw [fb_skills_base_toRat, fb_skills_base_toRat, hcard]
        have hcc : ((((sB.map pyLower).toFinset ∩
            (jobSkills.map pyLower).toFinset).card : ℚ)) ≤
            ((((sA.map pyLower).toFinset ∩ (jobSkills.map pyLower).toFinset).card : ℚ)) := by
          exact_mod_cast Finset.card_le_card hints
        gcongr
      refine PyNum.trunc_mono dpB dpA ?_ ?_
      · rw [PyNum.toRat_pymin (PyNum.DenPos.ofInt 95) dcB, PyNum.toRat_ofInt,
          fb_skills_compress_toRat dbB]
        refine le_min (by norm_num) (fbCompressQ_nonneg hb0)
      · rw [PyNum.toRat_pymin (PyNum.DenPos.ofInt 95) dcB,
          PyNum.toRat_pymin (PyNum.DenPos.ofInt 95) dcA, PyNum.toRat_ofInt,
          fb_skills_compress_toRat dbB, fb_skills_compress_toRat dbA]
        exact min_le_min (le_refl _) (fbCompressQ_mono hbase)
    · unfold fb_skills_match
      rw [if_neg hne, if_neg hne, hcard]

/-- C5 witness: the amended monotonicity at concrete inputs with equally
many extracted skills. -/
theorem skills_match_monotone_witness :
    calculate_skills_match_score ["python", "qqqq"] "python java" 50 ≤
      calculate_skills_match_score ["python", "java"] "python java" 50 ∧
    PyNum.trunc (fb_skills_match ["python", "qqqq"] ["python", "java"]) ≤
      PyNum.trunc (fb_skills_match ["python", "java"] ["python", "java"]) :=
  skills_match_monotone "python java" 50 ["python", "java"] ["python", "qqqq"]
    ["python", "java"] (by decide) (by decide) (by decide) (by decide) (by decide)


/-! ## Embedding cache of score_candidates_huggingface (claim C7) -/

/-- A candidate dict passed to `score_candidates_huggingface`: `id` models the
optional `'id'` key, `text` the `'text'` key (read as `candidate.get('text', '')`). -/
structure HFCandidate where
  id : Option String
  text : String

/-- The cache key of the candidate at position `i`:
`str(candidate.get('id', f'temp_{i}'))`. -/
def candId (i : ℕ) (c : HFCandidate) : String :=
  match c.id with
  | some s => s
  | none => "temp_" ++ toString i

/-- The cache-lookup loop of `score_candidates_huggingface`
(`for i, candidate in enumerate(candidates)`), started at position `i0`:
returns `candidate_embeddings` (with `none` placeholders), `to_compute_texts`
and `to_compute_indices`. -/
def gatherPhase {V : Type} (cache : String → Option V) :
    List HFCandidate → ℕ → List (Option V) × List String × List ℕ
  | [], _ => ([], [], [])
  | c :: rest, i =>
    match cache (candId i c) with
    | some v => (some v :: (gatherPhase cache rest (i + 1)).1,
        (gatherPhase cache rest (i + 1)).2.1, (gatherPhase cache rest (i + 1)).2.2)
    | none => (none :: (gatherPhase cache rest (i + 1)).1,
        c.text :: (gatherPhase cache rest (i + 1)).2.1,
        i :: (gatherPhase cache rest (i + 1)).2.2)

/-- The fill loop `candidate_embeddings[idx] = embedding` over each pair
`(idx, embedding)` of `zip(to_compute_indices, new_embeddings)`. -/
def fillPhase {V : Type} (es : List (Option V)) (pairs : List (ℕ × V)) : List (Option V) :=
  pairs.foldl (fun acc p => acc.set p.1 (some p.2)) es

/-- The final `candidate_embeddings` array assembled by
`score_candidates_huggingface`: cached vectors are used as loaded, the missed
texts are batch-computed by the embedding model `embedF` (`embed_texts` applies
the model to each collected text). -/
def hfCandidateEmbeddings {V : Type} (cache : String → Option V) (embedF : String → V)
    (cs : List HFCandidate) : List (Option V) :=
  fillPhase (gatherPhase cache cs 0).1
    ((gatherPhase cache cs 0).2.2.zip ((gatherPhase cache cs 0).2.1.map embedF))

/-- The list `to_compute_indices`: positions of the candidates whose texts are
sent to the embedding model. -/
def hfToComputeIndices {V : Type} (cache : String → Option V) (cs : List HFCandidate) :
    List ℕ :=
  (gatherPhase cache cs 0).2.2

/-- The on-disk cache after the call: `_save_embedding` runs for every computed
`(idx, embedding)` pair, keyed by `str(candidates[idx].get('id', f'temp_{idx}'))`;
a later save overwrites an earlier one with the same key. -/
def hfNewCache {V : Type} (cache : String → Option V) (embedF : String → V)
    (cs : List HFCandidate) : String → Option V :=
  ((gatherPhase cache cs 0).2.2.zip ((gatherPhase cache cs 0).2.1.map embedF)).foldl
    (fun acc p s =>
      if s = candId p.1 (cs.getD p.1 ⟨none, ""⟩) then some p.2 else acc s) cache

theorem gatherPhase_indices_ge {V : Type} (cache : String → Option V) :
    ∀ (cs : List HFCandidate) (i0 j : ℕ), j ∈ (gatherPhase cache cs i0).2.2 → i0 ≤ j := by
  intro cs
  induction cs with
  | nil => intro i0 j h; simp [gatherPhase] at h
  | cons c rest ih =>
    intro i0 j h
    cases hcv : cache (candId i0 c) with
    | some v =>
      simp only [gatherPhase, hcv] at h
      exact Nat.le_of_succ_le (ih (i0 + 1) j h)
    | none =>
      simp only [gatherPhase, hcv, List.mem_cons] at h
      rcases h with h1 | h2
      · omega
      · exact Nat.le_of_succ_le (ih (i0 + 1) j h2)

theorem gatherPhase_hit {V : Type} (cache : String → Option V) :
    ∀ (cs : List HFCandidate) (i0 j : ℕ) (c : HFCandidate) (v : V),
      cs[j]? = some c → cache (candId (i0 + j) c) = some v →
      (gatherPhase cache cs i0).1[j]? = some (some v) ∧
        (i0 + j) ∉ (gatherPhase cache cs i0).2.2 := by
  intro cs
  induction cs with
  | nil => intro i0 j c v hc hv; simp at hc
  | cons c0 rest ih =>
    intro i0 j c v hc hv
    cases j with
    | zero =>
      have hc0 : c0 = c := by simpa using hc
      subst hc0
      rw [Nat.add_zero] at hv
      refine ⟨by simp [gatherPhase, hv], ?_⟩
      simp only [gatherPhase, hv, Nat.add_zero]
      intro hmem
      have := gatherPhase_indices_ge cache rest (i0 + 1) i0 hmem
      omega
    | succ j' =>
      have hc' : rest[j']? = some c := by simpa using hc
      have hv' : cache (candId ((i0 + 1) + j') c) = some v := by
        have heq : (i0 + 1) + j' = i0 + (j' + 1) := by omega
        rw [heq]; exact hv
      obtain ⟨ih1, ih2⟩ := ih (i0 + 1) j' c v hc' hv'
      have heq : i0 + (j' + 1) = (i0 + 1) + j' := by omega
      cases hcv : cache (candId i0 c0) with
      | some w =>
        refine ⟨by simp [gatherPhase, hcv, ih1], ?_⟩
        simp only [gatherPhase, hcv, heq]
        exact ih2
      | none =>
        refine ⟨by simp [gatherPhase, hcv, ih1], ?_⟩
        simp only [gatherPhase, hcv, heq, List.mem_cons]
        rintro (h1 | h2)
        · omega
        · exact ih2 h2

theorem fillPhase_preserve {V : Type} :
    ∀ (pairs : List (ℕ × V)) (es : List (Option V)) (i : ℕ),
      (∀ p ∈ pairs, p.1 ≠ i) → (fillPhase es pairs)[i]? = es[i]? := by
  intro pairs
  induction pairs with
  | nil => intro es i _; rfl
  | cons p ps ih =>
    intro es i h
    have h1 : p.1 ≠ i := h p (List.mem_cons_self p ps)
    have h2 : ∀ q ∈ ps, q.1 ≠ i := fun q hq => h q (List.mem_cons_of_mem p hq)
    show (fillPhase (es.set p.1 (some p.2)) ps)[i]? = es[i]?
    rw [ih (es.set p.1 (some p.2)) i h2]
    exact List.getElem?_set_ne h1

/-- C7: a candidate whose id is already in the embedding cache receives exactly
the cached vector in the `candidate_embeddings` array assembled by
`score_candidates_huggingface`, and its position is excluded from
`to_compute_indices`, the batch sent to the embedding model. -/
theorem hf_embedding_cache_hit {V : Type} (cache : String → Option V)
    (embedF : String → V) (cs : List HFCandidate) (i : ℕ) (c : HFCandidate) (v : V)
    (hc : cs[i]? = some c) (hv : cache (candId i c) = some v) :
    (hfCandidateEmbeddings cache embedF cs)[i]? = some (some v) ∧
      i ∉ hfToComputeIndices cache cs := by
  have hg := gatherPhase_hit cache cs 0 i c v hc (by simpa using hv)
  have hg2 : i ∉ (gatherPhase cache cs 0).2.2 := by simpa using hg.2
  refine ⟨?_, hg2⟩
  unfold hfCandidateEmbeddings
  rw [fillPhase_preserve _ _ i ?_]
  · simpa using hg.1
  · intro p hp hpi
    have hmem : p.1 ∈ (gatherPhase cache cs 0).2.2 := (List.of_mem_zip hp).1
    rw [hpi] at hmem
    exact hg2 hmem

def c7cand : HFCandidate := ⟨some "alice", "hello"⟩

def c7cand2 : HFCandidate := ⟨some "bob", "resume text"⟩

def c7cache0 : String → Option ℕ := fun _ => none

/-- The cache produced by a first scoring call on `[c7cand]` with the toy
embedding model `String.length`. -/
def c7cache1 : String → Option ℕ := hfNewCache c7cache0 String.length [c7cand]

/-- C7 witness: after a first call computed and cached the embedding of
candidate "alice", a second call containing "alice" reads the identical vector
(5) from the cache and keeps position 0 out of the compute batch. -/
theorem hf_embedding_cache_hit_witness :
    (hfCandidateEmbeddings c7cache1 String.length [c7cand, c7cand2])[0]? =
        some (some 5) ∧
      0 ∉ hfToComputeIndices c7cache1 [c7cand, c7cand2] :=
  hf_embedding_cache_hit c7cache1 String.length [c7cand, c7cand2] 0 c7cand 5
    rfl rfl


/-! ## Candidate update written by the resume background task (claim C9) -/

/-- The entity data `process_resume_background_task` consumes; a field holds
`""` (or `[]`) when the corresponding key is missing or empty — both are falsy
in the source, so the dict truthiness tests flatten to these checks. -/
structure EntitiesData where
  contactName : String
  contactEmail : String
  contactPhone : String
  personNames : List String
  skills : List String

/-- Values stored in the `update_data` dict of `process_resume_background_task`. -/
inductive FieldValue where
  | str (s : String)
  | optStr (s : Option String)
  | num (q : ℚ)
  | statusNew

/-- The `candidate_name` computed by the task: `contact_info["name"].strip()`
when contact info carries a name, else the first of `person_names` stripped,
else nothing (modelled as `""`, falsy like Python's `None`). -/
def task_candidate_name (e : EntitiesData) : String :=
  if !(e.contactName == "") then pyStrip e.contactName
  else
    match e.personNames with
    | [] => ""
    | n :: _ => pyStrip n

/-- The `update_data` dict written by `db.candidates.update_one` on a
successful run, as an association list in insertion order: the four
unconditional fields, then `name` when a candidate name longer than two
characters was found, then `email` and `phone` when extracted.  `chromaId` and
`simScore` are the results of the embedding branch, consumed only when
`extracted_text` and the job description are truthy. -/
def process_update_data (extracted_text : String) (jobHasDescription : Bool)
    (chromaId : Option String) (simScore : Option ℚ) (e : EntitiesData) :
    List (String × FieldValue) :=
  [("extractedText", FieldValue.str extracted_text),
   ("chromaVectorId", FieldValue.optStr
      (if !(extracted_text == "") && jobHasDescription then chromaId else none)),
   ("matchScore", FieldValue.num
      (if !(extracted_text == "") && jobHasDescription then simScore.getD 0 else 0)),
   ("status", FieldValue.statusNew)] ++
  (if !(task_candidate_name e == "") && decide (2 < (task_candidate_name e).length)
    then [("name", FieldValue.str (task_candidate_name e))] else []) ++
  (if !(e.contactEmail == "") then [("email", FieldValue.str e.contactEmail)] else []) ++
  (if !(e.contactPhone == "") then [("phone", FieldValue.str e.contactPhone)] else [])

/-- C9 counterexample: a fully successful run whose extractor found a non-empty
skill list writes exactly the keys extractedText, chromaVectorId, matchScore,
status, name, email, phone — no "skills" key at all. -/
theorem update_data_skills_counterexample :
    (process_update_data "python developer resume" true (some "vec1") (some 1)
        ⟨"Jane Doe", "jane@corp.com", "123-4567", ["Jane Doe"], ["python", "sql"]⟩).map
        Prod.fst =
      ["extractedText", "chromaVectorId", "matchScore", "status",
        "name", "email", "phone"] ∧
      "skills" ∉ (process_update_data "python developer resume" true (some "vec1")
        (some 1)
        ⟨"Jane Doe", "jane@corp.com", "123-4567", ["Jane Doe"], ["python", "sql"]⟩).map
        Prod.fst :=
  ⟨by decide, by decide⟩

/-- C9 (amended): the update of a successful run always contains the extracted
text and a match score that falls back to 0 whenever the scoring branch never
ran; "name" is included exactly when a candidate name longer than two
characters was found; "email" and "phone" exactly when the extractor found
them; and — contrary to the claim — a "skills" key is never written. -/
theorem update_data_fields (t : String) (jd : Bool) (cid : Option String)
    (sim : Option ℚ) (e : EntitiesData) :
    ("extractedText", FieldValue.str t) ∈ process_update_data t jd cid sim e ∧
    ("matchScore", FieldValue.num (if !(t == "") && jd then sim.getD 0 else 0)) ∈
      process_update_data t jd cid sim e ∧
    "skills" ∉ (process_update_data t jd cid sim e).map Prod.fst ∧
    ("name" ∈ (process_update_data t jd cid sim e).map Prod.fst ↔
      (task_candidate_name e ≠ "" ∧ 2 < (task_candidate_name e).length)) ∧
    ("email" ∈ (process_update_data t jd cid sim e).map Prod.fst ↔
      e.contactEmail ≠ "") ∧
    ("phone" ∈ (process_update_data t jd cid sim e).map Prod.fst ↔
      e.contactPhone ≠ "") := by
  by_cases h1 : task_candidate_name e ≠ "" ∧ 2 < (task_candidate_name e).length <;>
    by_cases h2 : e.contactEmail ≠ "" <;>
    by_cases h3 : e.contactPhone ≠ "" <;>
    simp [process_update_data, h1, h2, h3, Bool.and_eq_true, Bool.not_eq_true',
      beq_eq_false_iff_ne, decide_eq_true_eq]

end AuraHR
